import Mathlib

/-!
Verification of the geometric region engine and the job pipeline of the
compare-pdfs backend.  Coordinates are modelled exactly with rationals;
the Python dictionaries of the source become structures; the fixpoint
loops of the source become fuel-indexed recursions whose fuel is proved
sufficient.
-/

namespace PdfCompare

/-- Bounding box [x0, y0, x1, y1] as used throughout the backend. -/
structure Box where
  x0 : ℚ
  y0 : ℚ
  x1 : ℚ
  y1 : ℚ
  deriving DecidableEq, Repr

/-- Embeds rect_intersection_area of paired_sections.py. -/
def rect_intersection_area (a b : Box) : ℚ :=
  let ix0 := max a.x0 b.x0
  let iy0 := max a.y0 b.y0
  let ix1 := min a.x1 b.x1
  let iy1 := min a.y1 b.y1
  if ix1 ≤ ix0 ∨ iy1 ≤ iy0 then 0 else (ix1 - ix0) * (iy1 - iy0)

/-- Embeds bbox_union of paired_sections.py on two boxes. -/
def bbox_union (a b : Box) : Box :=
  ⟨min a.x0 b.x0, min a.y0 b.y0, max a.x1 b.x1, max a.y1 b.y1⟩

/-- Embeds bbox_union of paired_sections.py on a nonempty list of boxes
(componentwise min over x0, y0 and max over x1, y1). -/
def bbox_union_list (b : Box) (bs : List Box) : Box :=
  bs.foldl bbox_union b

/-- Embeds contains_point of paired_sections.py (inclusive comparisons). -/
def contains_point (r : Box) (x y : ℚ) : Bool :=
  decide (r.x0 ≤ x ∧ x ≤ r.x1 ∧ r.y0 ≤ y ∧ y ≤ r.y1)

/-- A section/region dictionary of paired_sections.py: name, content type,
region bbox, and the element id list, present only once assigned
(the Python dicts carry the key element_ids only after assignment). -/
structure Sec where
  name : String
  content_type : String
  region : Box
  element_ids : Option (List String) := none
  deriving DecidableEq, Repr

/-- The element-id list of a section, empty when the key is absent. -/
def idsOf (s : Sec) : List String :=
  s.element_ids.getD []

/-- One merge step of resolve_overlaps: out[j] merged into out[i]
(bbox union, names joined with " + ", non-metadata displaces metadata,
differing non-metadata types become "mixed", element id lists are
concatenated when both are present). -/
def merge_sections (a b : Sec) : Sec :=
  { name := a.name ++ " + " ++ b.name
    region := bbox_union a.region b.region
    content_type :=
      if a.content_type = "metadata" then b.content_type
      else if b.content_type ≠ "metadata" ∧ a.content_type ≠ b.content_type then "mixed"
      else a.content_type
    element_ids :=
      match a.element_ids, b.element_ids with
      | some ia, some ib => some (ia ++ ib)
      | _, _ => a.element_ids }

/-- The inner j-loop of resolve_overlaps for a fixed out[i] = s: scan the
tail, merging every section overlapping s into s (the merged s is compared
against the following sections), keeping the others.  Returns the final
out[i], the surviving tail, and whether any merge happened. -/
def resolve_scan_tail (s : Sec) : List Sec → Sec × List Sec × Bool
  | [] => (s, [], false)
  | t :: rest =>
    if 0 < rect_intersection_area s.region t.region then
      let r := resolve_scan_tail (merge_sections s t) rest
      (r.1, r.2.1, true)
    else
      let r := resolve_scan_tail s rest
      (r.1, t :: r.2.1, r.2.2)

/-- The i-loop of resolve_overlaps: one full sweep over the list. -/
def resolve_sweep : List Sec → List Sec × Bool
  | [] => ([], false)
  | s :: rest =>
    let a := resolve_scan_tail s rest
    let b := resolve_sweep a.2.1
    (a.1 :: b.1, a.2.2 || b.2)
termination_by l => l.length
decreasing_by
  have h : ∀ (u : Sec) (l : List Sec), (resolve_scan_tail u l).2.1.length ≤ l.length := by
    intro u l
    induction l generalizing u with
    | nil => simp [resolve_scan_tail]
    | cons t rest ih =>
      simp only [resolve_scan_tail]
      by_cases hc : 0 < rect_intersection_area u.region t.region
      · simpa [hc] using (ih (merge_sections u t)).trans (Nat.le_succ _)
      · simpa [hc] using Nat.succ_le_succ (ih u)
  simpa using Nat.lt_succ_of_le (h _ _)

/-- The while changed loop of resolve_overlaps, with explicit fuel; each
changed sweep strictly shrinks the list, so sections.length + 1 sweeps
always reach the fixpoint. -/
def resolve_overlaps_loop : Nat → List Sec → List Sec
  | 0, out => out
  | fuel + 1, out =>
    let r := resolve_sweep out
    if r.2 then resolve_overlaps_loop fuel r.1 else r.1

/-- Embeds resolve_overlaps of paired_sections.py. -/
def resolve_overlaps (sections : List Sec) : List Sec :=
  resolve_overlaps_loop (sections.length + 1) sections

/-- No two distinct sections of the list have bboxes intersecting with
positive area. -/
def NoOverlap (l : List Sec) : Prop :=
  l.Pairwise fun a b => ¬ 0 < rect_intersection_area a.region b.region

/-- Every section of the list carries an element_ids key. -/
def AllSome (l : List Sec) : Prop :=
  ∀ s ∈ l, s.element_ids.isSome

/-- Total number of occurrences of an element id across all sections. -/
def totalCount (l : List Sec) (x : String) : Nat :=
  (l.map fun s => (idsOf s).count x).sum

/-- A page element as produced by page_map.py: id, type string, bbox and
optional text content. -/
structure PElem where
  id : String
  type : String
  bbox : Box
  content : Option String := none
  deriving DecidableEq, Repr

/-- The page map dictionary consumed by paired_sections.py. -/
structure PageMap where
  width : ℚ
  height : ℚ
  elements : List PElem
  header_separator_y : Option ℚ := none
  deriving DecidableEq, Repr

/-- Lexicographic comparison of the Python tuples (primary, index) used
as minimisation keys in assign_elements_to_sections. -/
def keyLt (a b : ℚ × Nat) : Bool :=
  decide (a.1 < b.1) || (decide (a.1 = b.1) && decide (a.2 < b.2))

/-- One step of the best is None or key < best_key loop of
assign_elements_to_sections. -/
def pick_step (key : Nat → ℚ × Nat) (best : Option Nat) (si : Nat) : Option Nat :=
  match best with
  | none => some si
  | some b => if keyLt (key si) (key b) then some si else best

/-- The minimisation loop of assign_elements_to_sections: first index
attaining the minimal key wins. -/
def pick_best (key : Nat → ℚ × Nat) (l : List Nat) : Option Nat :=
  l.foldl (pick_step key) none

/-- Fallback section used to read sec_out[si]; never reached at valid
indices. -/
def defaultSec : Sec :=
  { name := "", content_type := "", region := ⟨0, 0, 0, 0⟩ }

/-- sec_out[si] of the Python list. -/
def secAt (secs : List Sec) (i : Nat) : Sec :=
  secs.getD i defaultSec

/-- Indices of the sections whose region contains the centroid
(inclusive bounds, exactly as contains_point). -/
def containing_indices (secs : List Sec) (cx cy : ℚ) : List Nat :=
  (List.range secs.length).filter fun si => contains_point (secAt secs si).region cx cy

/-- Squared axis-wise distance key of the unassigned-element branch of
assign_elements_to_sections: per axis zero when the coordinate lies in
the range, else the smaller absolute distance to the two bounds. -/
def axis_distance (r : Box) (cx cy : ℚ) : ℚ :=
  let dy := if r.y0 ≤ cy ∧ cy ≤ r.y1 then 0 else min |cy - r.y0| |cy - r.y1|
  let dx := if r.x0 ≤ cx ∧ cx ≤ r.x1 then 0 else min |cx - r.x0| |cx - r.x1|
  dy * dy + dx * dx

/-- The x coordinate of the centroid of paired_sections.py. -/
def centroid_x (b : Box) : ℚ :=
  (b.x0 + b.x1) / 2

/-- The y coordinate of the centroid of paired_sections.py. -/
def centroid_y (b : Box) : ℚ :=
  (b.y0 + b.y1) / 2

/-- The section index chosen for one element by
assign_elements_to_sections: centroid containment, then largest
element-bbox intersection (key (-inter, si)), then smallest squared
axis-wise distance (key (dist, si)). -/
def choose_index (secs : List Sec) (el : PElem) : Nat :=
  let cx := centroid_x el.bbox
  let cy := centroid_y el.bbox
  match containing_indices secs cx cy with
  | [si] => si
  | _ :: _ :: _ =>
    (pick_best (fun si => (-(rect_intersection_area (secAt secs si).region el.bbox), si))
      (containing_indices secs cx cy)).getD 0
  | [] =>
    (pick_best (fun si => (axis_distance (secAt secs si).region cx cy, si))
      (List.range secs.length)).getD 0

/-- sec_out[chosen]["element_ids"].append(eid). -/
def push_id : List Sec → Nat → String → List Sec
  | [], _, _ => []
  | s :: rest, 0, eid =>
    { s with element_ids := match s.element_ids with
        | some ids => some (ids ++ [eid])
        | none => none } :: rest
  | s :: rest, i + 1, eid => s :: push_id rest i eid

/-- The per-section inner loop of the dedup pass: ids already seen are
dropped, fresh ids are kept and recorded. -/
def dedup_ids (seen acc ids : List String) : List String × List String :=
  match ids with
  | [] => (acc, seen)
  | eid :: rest =>
    if eid ∈ seen then dedup_ids seen acc rest
    else dedup_ids (eid :: seen) (acc ++ [eid]) rest

/-- The dedup pass of assign_elements_to_sections: one shared seen set
threaded through the sections in order. -/
def dedup_sections (seen : List String) : List Sec → List Sec
  | [] => []
  | s :: rest =>
    let r := dedup_ids seen [] (idsOf s)
    { s with element_ids := some r.1 } :: dedup_sections r.2 rest

/-- The synthetic full-page section produced when there are no regions
at all: named Page, content type mixed, the whole page, all element
ids. -/
def page_section (pm : PageMap) : Sec :=
  { name := "Page", content_type := "mixed", region := ⟨0, 0, pm.width, pm.height⟩,
    element_ids := some (pm.elements.map (·.id)) }

/-- Embeds assign_elements_to_sections of paired_sections.py. -/
def assign_elements_to_sections (pm : PageMap) (sections : List Sec) : List Sec :=
  match sections with
  | [] => [page_section pm]
  | _ :: _ =>
    let start := sections.map fun s => { s with element_ids := some ([] : List String) }
    let assigned := pm.elements.foldl (fun acc el => push_id acc (choose_index acc el) el.id) start
    dedup_sections [] assigned

/-- elements_by_id of apply_layout_to_page; a Python dict comprehension
lets the later duplicate win, hence the reverse lookup. -/
def element_by_id (els : List PElem) (eid : String) : Option PElem :=
  els.reverse.find? fun e => e.id == eid

/-- The per-section body of the recompute regions step of
apply_layout_to_page: replace the region bbox by the union of the bboxes
of the assigned elements, when there are any. -/
def recompute_sec (pm : PageMap) (s : Sec) : Sec :=
  match s.element_ids with
  | some (i0 :: irest) =>
    (match (i0 :: irest).filterMap (fun eid => (element_by_id pm.elements eid).map (·.bbox)) with
     | [] => s
     | b :: bs => { s with region := bbox_union_list b bs })
  | _ => s

/-- The recompute regions step of apply_layout_to_page. -/
def recompute_regions (pm : PageMap) (secs : List Sec) : List Sec :=
  secs.map (recompute_sec pm)

/-- The header clip step of apply_layout_to_page: a metadata section
whose top is above the detected separator has its bottom clamped to it. -/
def clip_headers (sep : Option ℚ) (layout : List Sec) : List Sec :=
  match sep with
  | none => layout
  | some y =>
    layout.map fun s =>
      if s.content_type = "metadata" ∧ s.region.y0 < y ∧ y < s.region.y1 then
        { s with region := { s.region with y1 := y } }
      else s

/-- The drop empty sections filter: s.get("element_ids") is truthy. -/
def keep_section (s : Sec) : Bool :=
  match s.element_ids with
  | some (_ :: _) => true
  | _ => false

/-- The stable reading-order sort key (region y0, then x0) as a total
boolean preorder for mergeSort (Python list.sort is a stable sort by
that tuple). -/
def reading_order_le (a b : Sec) : Bool :=
  decide (a.region.y0 < b.region.y0) ||
    (decide (a.region.y0 = b.region.y0) && decide (a.region.x0 ≤ b.region.x0))

/-- Embeds apply_layout_to_page of paired_sections.py: clip headers,
resolve overlaps, assign elements, recompute regions, resolve overlaps
again, drop empty sections, sort in reading order. -/
def apply_layout_to_page (pm : PageMap) (layout : List Sec) : List Sec :=
  let lc := clip_headers pm.header_separator_y layout
  let l1 := resolve_overlaps lc
  let s1 := assign_elements_to_sections pm l1
  let s2 := recompute_regions pm s1
  let s3 := resolve_overlaps s2
  let s4 := s3.filter keep_section
  s4.mergeSort reading_order_le

/-- A proximity-merge cluster of merge_nearby in page_map.py:
[bbox, types, texts, count].  The Python types field is a set observed
only through membership, so list concatenation is an exact model of its
union. -/
structure Cluster where
  cbox : Box
  types : List String
  texts : List String
  count : Nat
  deriving DecidableEq, Repr

/-- The gap condition of merge_nearby: the two bboxes lie within gap
points of each other on both axes. -/
def near_boxes (gap : ℚ) (a b : Box) : Bool :=
  decide (a.x0 ≤ b.x1 + gap) && decide (b.x0 ≤ a.x1 + gap) &&
    decide (a.y0 ≤ b.y1 + gap) && decide (b.y0 ≤ a.y1 + gap)

/-- Merging cluster j into cluster i in merge_nearby: expand the bbox,
union the type sets, append the texts, add the counts. -/
def merge_clusters (a b : Cluster) : Cluster :=
  { cbox := ⟨min a.cbox.x0 b.cbox.x0, min a.cbox.y0 b.cbox.y0,
             max a.cbox.x1 b.cbox.x1, max a.cbox.y1 b.cbox.y1⟩
    types := a.types ++ b.types
    texts := a.texts ++ b.texts
    count := a.count + b.count }

/-- The inner j-loop of one merge_nearby pass for a fixed cluster i. -/
def nearby_scan_tail (gap : ℚ) (c : Cluster) : List Cluster → Cluster × List Cluster × Bool
  | [] => (c, [], false)
  | t :: rest =>
    if near_boxes gap c.cbox t.cbox then
      let r := nearby_scan_tail gap (merge_clusters c t) rest
      (r.1, r.2.1, true)
    else
      let r := nearby_scan_tail gap c rest
      (r.1, t :: r.2.1, r.2.2)

/-- One full pass of the merge_nearby fixpoint loop. -/
def nearby_sweep (gap : ℚ) : List Cluster → List Cluster × Bool
  | [] => ([], false)
  | c :: rest =>
    let a := nearby_scan_tail gap c rest
    let b := nearby_sweep gap a.2.1
    (a.1 :: b.1, a.2.2 || b.2)
termination_by l => l.length
decreasing_by
  have h : ∀ (u : Cluster) (l : List Cluster),
      (nearby_scan_tail gap u l).2.1.length ≤ l.length := by
    intro u l
    induction l generalizing u with
    | nil => simp [nearby_scan_tail]
    | cons t rest ih =>
      simp only [nearby_scan_tail]
      by_cases hc : near_boxes gap u.cbox t.cbox = true
      · simpa [hc] using (ih (merge_clusters u t)).trans (Nat.le_succ _)
      · simpa [hc] using Nat.succ_le_succ (ih u)
  simpa using Nat.lt_succ_of_le (h _ _)

/-- The while changed loop of merge_nearby, fuel-indexed. -/
def nearby_loop (gap : ℚ) : Nat → List Cluster → List Cluster
  | 0, cs => cs
  | fuel + 1, cs =>
    let r := nearby_sweep gap cs
    if r.2 then nearby_loop gap fuel r.1 else r.1

/-- The initial one-element cluster of merge_nearby
([*bbox], {type}, [content or ""], 1). -/
def cluster_of (e : PElem) : Cluster :=
  { cbox := e.bbox, types := [e.type], texts := [e.content.getD ""], count := 1 }

/-- The classification step at the end of merge_nearby: text_block when
the type set is inside {text, merged}, drawing_block when it meets
neither, mixed_block otherwise; content is the space-joined first 10
nonempty texts.  The output dictionaries carry no id. -/
def classify_cluster (c : Cluster) : PElem :=
  let text_content := c.texts.filter fun t => t ≠ ""
  let has_text : Bool := "text" ∈ c.types ∨ "merged" ∈ c.types
  let only_text : Bool := decide (∀ t ∈ c.types, t = "text" ∨ t = "merged")
  { id := ""
    type := if only_text && has_text then "text_block"
            else if !has_text then "drawing_block"
            else "mixed_block"
    bbox := c.cbox
    content := if text_content ≠ [] then
        some (String.intercalate " " (text_content.take 10))
      else none }

/-- PROXIMITY_GAP of page_map.py. -/
def PROXIMITY_GAP : ℚ := 5

/-- Embeds merge_nearby of page_map.py: lists of at most one element are
returned unchanged; otherwise the clusters are merged to a fixpoint and
classified. -/
def merge_nearby (elements : List PElem) (gap : ℚ := PROXIMITY_GAP) : List PElem :=
  if elements.length ≤ 1 then elements
  else
    let clusters := elements.map cluster_of
    (nearby_loop gap (clusters.length + 1) clusters).map classify_cluster

/-- The vertical midpoint of a primitive bbox. -/
def mid_y (el : PElem) : ℚ :=
  (el.bbox.y0 + el.bbox.y1) / 2

/-- The candidate filter of detect_header_separator in page_map.py: a
line or rect primitive, at most 3 points thick, spanning at least half
the page width, with vertical midpoint in the top 15 percent. -/
def is_separator_candidate (page_width page_height : ℚ) (el : PElem) : Bool :=
  (el.type == "line" || el.type == "rect") &&
    decide (el.bbox.y1 - el.bbox.y0 ≤ 3) &&
    decide (page_width * (1 / 2) ≤ el.bbox.x1 - el.bbox.x0) &&
    decide (mid_y el ≤ page_height * (15 / 100))

/-- Embeds detect_header_separator of page_map.py: the largest candidate
midpoint, when there is any candidate. -/
def detect_header_separator (raw_elements : List PElem) (page_width page_height : ℚ) :
    Option ℚ :=
  let candidates := (raw_elements.filter (is_separator_candidate page_width page_height)).map mid_y
  match candidates with
  | [] => none
  | c :: cs => some (cs.foldl max c)

/-- AnalysisStatus of models.py. -/
inductive AnalysisStatus
  | idle
  | running
  | done
  | failed
  deriving DecidableEq, Repr

/-- PairStatus of models.py. -/
inductive PairStatus
  | pending
  | running
  | ok
  | needs_attention
  | broken
  deriving DecidableEq, Repr

/-- PdfPair of models.py. -/
structure PdfPair where
  pair_id : String
  filename : String
  reference_path : String
  test_path : String
  status : PairStatus := .pending
  page_count_reference : Nat
  page_count_test : Nat
  deriving DecidableEq, Repr

/-- JobMetadata of models.py: one record per job with the three stage
status/progress/total field groups; only the first stage has an error
field. -/
structure JobMetadata where
  job_id : String
  report_type : String
  pairs : List PdfPair
  unmatched_reference : List String := []
  unmatched_test : List String := []
  created_at : String
  analysis_status : AnalysisStatus := .idle
  analysis_progress : Nat := 0
  analysis_total : Nat := 0
  analysis_error : Option String := none
  global_analysis_status : AnalysisStatus := .idle
  global_analysis_progress : Nat := 0
  global_analysis_total : Nat := 0
  section_analysis_status : AnalysisStatus := .idle
  section_analysis_progress : Nat := 0
  section_analysis_total : Nat := 0
  deriving DecidableEq, Repr

/-- RUN_INTERRUPTED_ERROR of job_store.py. -/
def RUN_INTERRUPTED_ERROR : String := "Interrupted by backend restart"

/-- The per-job body of reconcile_running_jobs in job_store.py: each of
the three stage statuses found running becomes failed; only the first
stage records the sentinel message, the record having no error field for
the other two. -/
def reconcile_job (j : JobMetadata) : JobMetadata :=
  let j1 := if j.analysis_status = .running then
      { j with analysis_status := .failed, analysis_error := some RUN_INTERRUPTED_ERROR }
    else j
  let j2 := if j1.global_analysis_status = .running then
      { j1 with global_analysis_status := .failed }
    else j1
  if j2.section_analysis_status = .running then
    { j2 with section_analysis_status := .failed }
  else j2

/-- Whether any stage of the job was running (the changed flag of
reconcile_running_jobs contributed by this job). -/
def job_was_running (j : JobMetadata) : Bool :=
  decide (j.analysis_status = .running) || decide (j.global_analysis_status = .running) ||
    decide (j.section_analysis_status = .running)

/-- Embeds reconcile_running_jobs of job_store.py: the reconciled job
list together with whether persist_all was called. -/
def reconcile_running_jobs (jobs : List JobMetadata) : List JobMetadata × Bool :=
  (jobs.map reconcile_job, jobs.any job_was_running)

/-- The work item list built by the three pipelines: one unit per pair
and page, pages 1 .. max(page_count_reference, page_count_test); the
disk paths of each unit feed only the external extraction and are not
part of the unit identity modelled here. -/
def work_items (job : JobMetadata) : List (String × Nat) :=
  job.pairs.flatMap fun pair =>
    (List.range (max pair.page_count_reference pair.page_count_test)).map fun k =>
      (pair.pair_id, k + 1)

/-- One observable job-record state during a pipeline run, together with
whether persist_job was called right after it was reached. -/
structure TraceStep where
  state : JobMetadata
  persisted : Bool
  deriving DecidableEq, Repr

/-- The job-record states of run_analysis of analysis_pipeline.py, in
order: the transition to running with total and progress set, the state
after each completed unit, and the transition to done.  run_analysis
never calls persist_job. -/
def analysis_run_trace (job : JobMetadata) : List TraceStep :=
  let n := (work_items job).length
  let j0 := { job with analysis_status := .running, analysis_total := n, analysis_progress := 0 }
  (⟨j0, false⟩ ::
    (List.range n).map fun k => ⟨{ j0 with analysis_progress := k + 1 }, false⟩) ++
      [⟨{ j0 with analysis_progress := n, analysis_status := .done }, false⟩]

/-- The job-record states of run_global_analysis of
global_analysis_pipeline.py: persisted at the running transition, after
the final unit and after every 10th unit, and at the done transition. -/
def global_run_trace (job : JobMetadata) : List TraceStep :=
  let n := (work_items job).length
  let j0 := { job with
    global_analysis_status := .running
    global_analysis_total := n
    global_analysis_progress := 0 }
  (⟨j0, true⟩ ::
    (List.range n).map fun k =>
      ⟨{ j0 with global_analysis_progress := k + 1 },
        decide (k + 1 = n) || decide ((k + 1) % 10 = 0)⟩) ++
      [⟨{ j0 with global_analysis_progress := n, global_analysis_status := .done }, true⟩]

/-- The job-record states of run_section_analysis of
section_analysis_pipeline.py; the run refuses to start unless the
detection stage is done, and otherwise persists exactly like the global
pipeline. -/
def section_run_trace (job : JobMetadata) : List TraceStep :=
  if job.analysis_status ≠ .done then []
  else
    let n := (work_items job).length
    let j0 := { job with
      section_analysis_status := .running
      section_analysis_total := n
      section_analysis_progress := 0 }
    (⟨j0, true⟩ ::
      (List.range n).map fun k =>
        ⟨{ j0 with section_analysis_progress := k + 1 },
          decide (k + 1 = n) || decide ((k + 1) % 10 = 0)⟩) ++
        [⟨{ j0 with section_analysis_progress := n, section_analysis_status := .done }, true⟩]

/-!
The fuzzy scorer of section_analysis_pipeline.py is rapidfuzz
fuzz.WRatio, an external library capability (the spec treats it as a
pluggable normalized token-aware similarity on the 0 to 100 scale).  The
following definitions model it exactly on that contract: indel-based
ratio, token sort and token set variants, windowed (best alignment)
variants, and the WRatio length-dependent combination.
-/

/-- One row-extension step of the longest-common-subsequence table. -/
def lcs_row (x : Char) : List Char → List Nat → Nat → Nat → List Nat
  | [], _, _, _ => []
  | y :: ys, prev, diag, left =>
    let up := prev.headD 0
    let cur := if x = y then diag + 1 else max left up
    cur :: lcs_row x ys prev.tail up cur

/-- The next full LCS table row for character x. -/
def lcs_next_row (x : Char) (bs : List Char) (prevRow : List Nat) : List Nat :=
  0 :: lcs_row x bs prevRow.tail (prevRow.headD 0) 0

/-- Length of the longest common subsequence, by dynamic programming. -/
def lcs_len (a b : List Char) : Nat :=
  (a.foldl (fun row x => lcs_next_row x b row) (List.replicate (b.length + 1) 0)).getLastD 0

/-- The indel (insertion/deletion) distance between two strings. -/
def indel_dist (a b : List Char) : Nat :=
  a.length + b.length - 2 * lcs_len a b

/-- Normalized indel similarity on the 0 to 100 scale from a distance
and the summed length. -/
def norm_dist_score (dist lensum : Nat) : ℚ :=
  if lensum = 0 then 100 else 100 - 100 * dist / lensum

/-- Modelled from the spec: fuzz.ratio of the external rapidfuzz
library, the normalized indel similarity of the two strings. -/
def fuzz_base_score (a b : List Char) : ℚ :=
  norm_dist_score (indel_dist a b) (a.length + b.length)

/-- Code-point lexicographic comparison of character lists, the Python
string ordering used by sorted. -/
def chars_lt : List Char → List Char → Bool
  | [], [] => false
  | [], _ :: _ => true
  | _ :: _, [] => false
  | a :: as, b :: bs => if a = b then chars_lt as bs else decide (a < b)

/-- String order for sorted token lists. -/
def str_le (a b : String) : Bool :=
  !(chars_lt b.toList a.toList)

/-- Stable insertion step of the token sort. -/
def insert_le (x : String) : List String → List String
  | [] => [x]
  | y :: ys => if str_le y x then y :: insert_le x ys else x :: y :: ys

/-- Python sorted on strings (stable, code-point lexicographic). -/
def sort_strings (l : List String) : List String :=
  l.foldr insert_le []

/-- First-occurrence deduplication, the list view of a Python set. -/
def uniq_go (seen : List String) : List String → List String
  | [] => []
  | x :: xs => if x ∈ seen then uniq_go seen xs else x :: uniq_go (x :: seen) xs

/-- Whitespace tokenizer, the Python str.split() with no argument. -/
def tokens_go (cur : List Char) : List Char → List String
  | [] => if cur = [] then [] else [String.mk cur.reverse]
  | c :: rest =>
    if c.isWhitespace then
      if cur = [] then tokens_go [] rest
      else String.mk cur.reverse :: tokens_go [] rest
    else tokens_go (c :: cur) rest

/-- The whitespace token list of a string. -/
def split_tokens (s : String) : List String :=
  tokens_go [] s.toList

/-- The sorted unique token list of a string. -/
def uniq_tokens (s : String) : List String :=
  uniq_go [] (sort_strings (split_tokens s))

/-- The space-joined sorted token string of a string. -/
def token_sort_join (s : String) : String :=
  String.intercalate " " (sort_strings (split_tokens s))

/-- Modelled from the spec: fuzz.token_sort_ratio of rapidfuzz, the
indel similarity of the space-joined sorted token strings. -/
def token_sort_score (s t : String) : ℚ :=
  fuzz_base_score (token_sort_join s).toList (token_sort_join t).toList

/-- Modelled from the spec: fuzz.token_set_ratio of rapidfuzz over the
unique sorted tokens: 100 when the common tokens cover one side, else
the best of the joined-difference similarity and the two
common-versus-full similarities. -/
def token_set_score (s t : String) : ℚ :=
  let ta := uniq_tokens s
  let tb := uniq_tokens t
  let sect := ta.filter fun w => w ∈ tb
  let diff_ab := ta.filter fun w => w ∉ tb
  let diff_ba := tb.filter fun w => w ∉ ta
  if sect ≠ [] ∧ (diff_ab = [] ∨ diff_ba = []) then 100
  else
    let abj := String.intercalate " " diff_ab
    let baj := String.intercalate " " diff_ba
    let sect_len := (String.intercalate " " sect).length
    let bonus := if sect_len = 0 then 0 else 1
    let direct := norm_dist_score (indel_dist abj.toList baj.toList) (abj.length + baj.length)
    let sect_ab := norm_dist_score (bonus + abj.length)
      (sect_len + (sect_len + bonus + abj.length))
    let sect_ba := norm_dist_score (bonus + baj.length)
      (sect_len + (sect_len + bonus + baj.length))
    max direct (max sect_ab sect_ba)

/-- max of token sort and token set similarity. -/
def token_combined_score (s t : String) : ℚ :=
  max (token_sort_score s t) (token_set_score s t)

/-- All windows of the given length of a character list. -/
def char_windows (len : Nat) (l : List Char) : List (List Char) :=
  (List.range (l.length - len + 1)).map fun i => (l.drop i).take len

/-- Modelled from the spec: fuzz.partial_ratio of rapidfuzz, the best
indel similarity of the shorter string against the windows of its
length in the longer one (the optimal local alignment). -/
def window_score (a b : List Char) : ℚ :=
  let short := if a.length ≤ b.length then a else b
  let long := if a.length ≤ b.length then b else a
  ((char_windows short.length long).map fun w => fuzz_base_score short w).foldl max 0

/-- Modelled from the spec: fuzz.partial_token_ratio of rapidfuzz: best
of the windowed similarity of the sorted token joins, and 100 as soon
as the two strings share a token. -/
def window_token_score (s t : String) : ℚ :=
  let sorted := window_score (token_sort_join s).toList (token_sort_join t).toList
  let setpart :=
    if (uniq_tokens s).any fun w => w ∈ uniq_tokens t then (100 : ℚ)
    else window_score (String.intercalate " " (uniq_tokens s)).toList
      (String.intercalate " " (uniq_tokens t)).toList
  max sorted setpart

/-- Modelled from the spec: fuzz.WRatio of rapidfuzz, the scorer passed
to process.extractOne by match_sections: plain ratio, blended with the
token scores (scaled by 0.95) for similar lengths, and additionally with
the windowed scores (scaled by 0.9, or 0.6 for very different lengths)
otherwise. -/
def wratio_score (s t : String) : ℚ :=
  let la := s.length
  let lb := t.length
  if la = 0 ∨ lb = 0 then 0
  else
    let base := fuzz_base_score s.toList t.toList
    if (max la lb : ℚ) < (3 / 2) * min la lb then
      max base ((95 / 100) * token_combined_score s t)
    else if (max la lb : ℚ) < 8 * min la lb then
      max base (max ((9 / 10) * window_score s.toList t.toList)
        ((9 / 10) * ((95 / 100) * window_token_score s t)))
    else
      max base (max ((6 / 10) * window_score s.toList t.toList)
        ((6 / 10) * ((95 / 100) * window_token_score s t)))

/-- MATCH_THRESHOLD of section_analysis_pipeline.py. -/
def MATCH_THRESHOLD : ℚ := 75

/-- One comparison step of the extractOne scan: strictly better scores
replace the incumbent, so the first of equal scores wins. -/
def extract_step (scorer : String → String → ℚ) (query : String)
    (best : Option (String × ℚ)) (c : String) : Option (String × ℚ) :=
  match best with
  | none => some (c, scorer query c)
  | some b => if scorer query c > b.2 then some (c, scorer query c) else best

/-- process.extractOne of rapidfuzz over a choice list: the first choice
attaining the maximal score, none only for an empty list. -/
def extract_one (scorer : String → String → ℚ) (query : String) (choices : List String) :
    Option (String × ℚ) :=
  choices.foldl (extract_step scorer query) none

/-- The accumulator of the match_sections loop: the matched pairs in
order and the consumed test names (a Python set, observed only through
membership). -/
structure MatchState where
  matched : List (String × String)
  used_test : List String
  deriving DecidableEq, Repr

/-- The per-reference-name loop of match_sections: exact match against a
not yet consumed test name first, else the best fuzzy candidate when it
reaches the threshold, else no match for this name. -/
def match_sections_go (scorer : String → String → ℚ) (test_names : List String) :
    List String → MatchState → MatchState
  | [], st => st
  | rn :: rest, st =>
    if rn ∈ test_names ∧ rn ∉ st.used_test then
      match_sections_go scorer test_names rest
        ⟨st.matched ++ [(rn, rn)], rn :: st.used_test⟩
    else
      match extract_one scorer rn (test_names.filter fun tn => tn ∉ st.used_test) with
      | some m =>
        if m.2 ≥ MATCH_THRESHOLD then
          match_sections_go scorer test_names rest
            ⟨st.matched ++ [(rn, m.1)], m.1 :: st.used_test⟩
        else match_sections_go scorer test_names rest st
      | none => match_sections_go scorer test_names rest st

/-- Embeds match_sections of section_analysis_pipeline.py,
parameterised by the scorer: matched pairs, reference-only names, and
test-only names. -/
def match_sections (scorer : String → String → ℚ) (ref_names test_names : List String) :
    List (String × String) × List String × List String :=
  let st := match_sections_go scorer test_names ref_names ⟨[], []⟩
  let ref_only := ref_names.filter fun rn => !(st.matched.any fun p => p.1 == rn)
  let test_only := test_names.filter fun tn => tn ∉ st.used_test
  (st.matched, ref_only, test_only)

/-- CheckStatus of models.py. -/
inductive CheckStatus
  | ok
  | maybe
  | issue
  deriving DecidableEq, Repr

/-- GlobalCheckResult of models.py. -/
structure GlobalCheckResult where
  check_name : String
  status : CheckStatus
  explanation : String
  deriving DecidableEq, Repr

/-- GlobalPageAnalysis of models.py. -/
structure GlobalPageAnalysisR where
  page_number : Nat
  checks : List GlobalCheckResult
  deriving DecidableEq, Repr

/-- SectionCheck of models.py. -/
structure SectionCheck where
  check_name : String
  status : CheckStatus
  explanation : String
  deriving DecidableEq, Repr

/-- SectionCheckResult of models.py. -/
structure SectionCheckResult where
  section_name : String
  checks : List SectionCheck
  matched_instructions : Bool
  deriving DecidableEq, Repr

/-- SectionPageAnalysisResult of models.py. -/
structure SectionPageAnalysisR where
  page_number : Nat
  results : List SectionCheckResult
  deriving DecidableEq, Repr

/-- PageAnalysis of models.py. -/
structure PageAnalysisR where
  page_number : Nat
  page_width : ℚ
  page_height : ℚ
  sections : List Sec
  deriving DecidableEq, Repr

/-- Dictionary update for the in-memory stores. -/
def store_put {κ ν : Type} [DecidableEq κ] (store : List (κ × ν)) (k : κ) (v : ν) :
    List (κ × ν) :=
  (store.filter fun p => p.1 ≠ k) ++ [(k, v)]

/-- The combined mutable state touched by the three pipeline entry
points: the in-memory job dict, the count of persisted snapshot writes,
and the three result stores. -/
structure World where
  jobs : List (String × JobMetadata)
  snapshots : Nat
  analysis_results : List ((String × String × String × Nat) × PageAnalysisR)
  global_results : List ((String × String × Nat) × GlobalPageAnalysisR)
  section_results : List ((String × String × Nat) × SectionPageAnalysisR)
  deriving DecidableEq, Repr

/-- job_store.get_job over the in-memory dict. -/
def get_job (w : World) (job_id : String) : Option JobMetadata :=
  (w.jobs.find? fun p => p.1 == job_id).map (·.2)

/-- Embeds run_analysis of analysis_pipeline.py as a state transformer;
the per-unit page work is the external analyze_page_pair oracle, none
modelling a unit failure caught at the unit boundary.  run_analysis
stores both page analyses per successful unit, drives the stage to done,
and never calls persist_job. -/
def run_analysis_world (oracle : String → Nat → Option (PageAnalysisR × PageAnalysisR))
    (job_id : String) (w : World) : World :=
  match get_job w job_id with
  | none => w
  | some job =>
    let items := work_items job
    let n := items.length
    let stores := items.foldl
      (fun acc it =>
        match oracle it.1 it.2 with
        | some r =>
          store_put (store_put acc (job_id, it.1, "reference", it.2) r.1)
            (job_id, it.1, "test", it.2) r.2
        | none => acc)
      w.analysis_results
    let jobDone := { job with
      analysis_status := .done
      analysis_total := n
      analysis_progress := n }
    { w with jobs := store_put w.jobs job_id jobDone, analysis_results := stores }

/-- Embeds run_global_analysis of global_analysis_pipeline.py as a state
transformer; analyze_page_global is the external oracle.  Persists at
the running transition, per interval, and at the done transition. -/
def run_global_analysis_world (oracle : String → Nat → Option GlobalPageAnalysisR)
    (job_id : String) (w : World) : World :=
  match get_job w job_id with
  | none => w
  | some job =>
    let items := work_items job
    let n := items.length
    let stores := items.foldl
      (fun acc it =>
        match oracle it.1 it.2 with
        | some r => store_put acc (job_id, it.1, it.2) r
        | none => acc)
      w.global_results
    let persists := 1 + ((List.range n).filter fun k => k + 1 = n ∨ (k + 1) % 10 = 0).length + 1
    let jobDone := { job with
      global_analysis_status := .done
      global_analysis_total := n
      global_analysis_progress := n }
    { w with
      jobs := store_put w.jobs job_id jobDone
      global_results := stores
      snapshots := w.snapshots + persists }

/-- Embeds run_section_analysis of section_analysis_pipeline.py as a
state transformer; the per-page section comparison is the external
oracle.  Refuses to start unless the detection stage is done; persists
like the global pipeline. -/
def run_section_analysis_world (oracle : String → Nat → Option SectionPageAnalysisR)
    (job_id : String) (w : World) : World :=
  match get_job w job_id with
  | none => w
  | some job =>
    if job.analysis_status ≠ .done then w
    else
      let items := work_items job
      let n := items.length
      let stores := items.foldl
        (fun acc it =>
          match oracle it.1 it.2 with
          | some r => store_put acc (job_id, it.1, it.2) r
          | none => acc)
        w.section_results
      let persists := 1 + ((List.range n).filter fun k => k + 1 = n ∨ (k + 1) % 10 = 0).length + 1
      let jobDone := { job with
        section_analysis_status := .done
        section_analysis_total := n
        section_analysis_progress := n }
      { w with
        jobs := store_put w.jobs job_id jobDone
        section_results := stores
        snapshots := w.snapshots + persists }

/-!
Claim-side comparison definitions and concrete inputs used by the
theorems below.
-/

/-- Stated from the claim wording only, for comparison with the code:
the centroid falls strictly inside the bbox. -/
def strictly_contains_point (r : Box) (x y : ℚ) : Bool :=
  decide (r.x0 < x ∧ x < r.x1 ∧ r.y0 < y ∧ y < r.y1)

/-- Stated from the claim wording only, for comparison with
choose_index: the same assignment rule but with strict centroid
containment, as the claim words it. -/
def claim_choose_index_strict (secs : List Sec) (el : PElem) : Nat :=
  let cx := centroid_x el.bbox
  let cy := centroid_y el.bbox
  let containing := (List.range secs.length).filter fun si =>
    strictly_contains_point (secAt secs si).region cx cy
  match containing with
  | [si] => si
  | _ :: _ :: _ =>
    (pick_best (fun si => (-(rect_intersection_area (secAt secs si).region el.bbox), si))
      containing).getD 0
  | [] =>
    (pick_best (fun si => (axis_distance (secAt secs si).region cx cy, si))
      (List.range secs.length)).getD 0

/-- C6 counterexample regions: two boundary-adjacent regions sharing the
line x = 10. -/
def c6secs : List Sec :=
  [{ name := "A", content_type := "text_block", region := ⟨0, 4, 10, 6⟩ },
   { name := "B", content_type := "text_block", region := ⟨10, 2, 20, 8⟩ }]

/-- C6 counterexample element: centroid (10, 5) on the shared boundary,
bbox overlapping region B twice as much as region A. -/
def c6el : PElem :=
  { id := "e1", type := "text", bbox := ⟨8, 3, 12, 7⟩ }

/-- C7 example regions Intro [0,0,10,10] and Chart [5,5,15,15]. -/
def c7intro : Sec :=
  { name := "Intro", content_type := "text_block", region := ⟨0, 0, 10, 10⟩ }

/-- The Chart region of the C7 example. -/
def c7chart : Sec :=
  { name := "Chart", content_type := "chart", region := ⟨5, 5, 15, 15⟩ }

/-- C8 counterexample: two far-apart merged-type blocks carrying no text
content at all. -/
def c8elements : List PElem :=
  [{ id := "", type := "merged", bbox := ⟨0, 0, 1, 1⟩ },
   { id := "", type := "merged", bbox := ⟨100, 100, 101, 101⟩ }]

/-- C9 counterexample primitive: a text primitive that is 2 points
thick, spans 60 percent of the page width and has its midpoint at 1
percent of the page height. -/
def c9textel : PElem :=
  { id := "", type := "text", bbox := ⟨0, 0, 60, 2⟩, content := some "x" }

/-- A pair with one page on each side. -/
def onePagePair : PdfPair :=
  { pair_id := "p1", filename := "report.pdf", reference_path := "ref/report.pdf",
    test_path := "test/report.pdf", page_count_reference := 1, page_count_test := 1 }

/-- C2 counterexample job: all three stages running at load time. -/
def c2job : JobMetadata :=
  { job_id := "j1", report_type := "none", pairs := [onePagePair], created_at := "t0",
    analysis_status := .running, global_analysis_status := .running,
    section_analysis_status := .running }

/-- C3 counterexample job: no pairs, hence a zero-unit run. -/
def c3job : JobMetadata :=
  { job_id := "j3", report_type := "none", pairs := [], created_at := "t0" }

/-- C5 counterexample job: a one-unit detection run. -/
def c5job : JobMetadata :=
  { job_id := "j5", report_type := "none", pairs := [onePagePair], created_at := "t0" }

/-- A job used by witnesses: detection done, one pair with one page. -/
def doneJob : JobMetadata :=
  { job_id := "j9", report_type := "none", pairs := [onePagePair], created_at := "t0",
    analysis_status := .done }

/-- C10 witness world: one unrelated job record in the store. -/
def c10world : World :=
  { jobs := [("j9", doneJob)], snapshots := 0, analysis_results := [],
    global_results := [], section_results := [] }

/-- C1 witness page map: two text elements. -/
def c1pm : PageMap :=
  { width := 20, height := 20,
    elements := [{ id := "E1", type := "text", bbox := ⟨1, 1, 3, 3⟩, content := some "a" },
                 { id := "E2", type := "text", bbox := ⟨11, 11, 13, 13⟩, content := some "b" }] }

/-- C1 witness layout: two disjoint proposed regions. -/
def c1layout : List Sec :=
  [{ name := "S1", content_type := "text_block", region := ⟨0, 0, 9, 9⟩ },
   { name := "S2", content_type := "table", region := ⟨10, 10, 19, 19⟩ }]

/-!
Lemmas about the overlap resolver.
-/

theorem totalCount_cons (s : Sec) (l : List Sec) (x : String) :
    totalCount (s :: l) x = (idsOf s).count x + totalCount l x := by
  simp [totalCount]

theorem merge_sections_ids (a b : Sec) (ha : a.element_ids.isSome) (hb : b.element_ids.isSome) :
    (merge_sections a b).element_ids.isSome ∧
      idsOf (merge_sections a b) = idsOf a ++ idsOf b := by
  obtain ⟨ia, ha⟩ := Option.isSome_iff_exists.mp ha
  obtain ⟨ib, hb⟩ := Option.isSome_iff_exists.mp hb
  simp [merge_sections, idsOf, ha, hb]

theorem resolve_scan_tail_len (s : Sec) (l : List Sec) :
    (resolve_scan_tail s l).2.1.length ≤ l.length := by
  induction l generalizing s with
  | nil => simp [resolve_scan_tail]
  | cons t rest ih =>
    simp only [resolve_scan_tail]
    by_cases hc : 0 < rect_intersection_area s.region t.region
    · simpa [hc] using (ih (merge_sections s t)).trans (Nat.le_succ _)
    · simpa [hc] using Nat.succ_le_succ (ih s)

theorem resolve_scan_tail_false (l : List Sec) :
    ∀ s : Sec, (resolve_scan_tail s l).2.2 = false →
      (resolve_scan_tail s l).1 = s ∧ (resolve_scan_tail s l).2.1 = l ∧
        ∀ t ∈ l, ¬ 0 < rect_intersection_area s.region t.region := by
  induction l with
  | nil => intro s _; simp [resolve_scan_tail]
  | cons t rest ih =>
    intro s h
    by_cases hc : 0 < rect_intersection_area s.region t.region
    · simp [resolve_scan_tail, hc] at h
    · have h' : (resolve_scan_tail s rest).2.2 = false := by
        simpa [resolve_scan_tail, hc] using h
      obtain ⟨h1, h2, h3⟩ := ih s h'
      refine ⟨by simpa [resolve_scan_tail, hc] using h1,
        by simp [resolve_scan_tail, hc, h2], ?_⟩
      intro u hu
      rcases List.mem_cons.mp hu with rfl | hu
      · exact hc
      · exact h3 u hu

theorem resolve_scan_tail_ids (l : List Sec) :
    ∀ s : Sec, s.element_ids.isSome → AllSome l →
      (resolve_scan_tail s l).1.element_ids.isSome ∧ AllSome (resolve_scan_tail s l).2.1 ∧
        ∀ x, (idsOf (resolve_scan_tail s l).1).count x + totalCount (resolve_scan_tail s l).2.1 x
          = (idsOf s).count x + totalCount l x := by
  induction l with
  | nil => intro s hs _; simpa [resolve_scan_tail, AllSome, totalCount] using hs
  | cons t rest ih =>
    intro s hs hl
    have ht : t.element_ids.isSome := hl t (List.mem_cons_self t rest)
    have hrest : AllSome rest := fun u hu => hl u (List.mem_cons_of_mem t hu)
    by_cases hc : 0 < rect_intersection_area s.region t.region
    · have hm := merge_sections_ids s t hs ht
      obtain ⟨h1, h2, h3⟩ := ih (merge_sections s t) hm.1 hrest
      refine ⟨by simpa [resolve_scan_tail, hc] using h1,
        by simpa [resolve_scan_tail, hc] using h2, ?_⟩
      intro x
      have h4 := h3 x
      rw [hm.2] at h4
      simp only [resolve_scan_tail, hc, if_pos, List.count_append] at h4 ⊢
      simp [totalCount_cons]
      omega
    · obtain ⟨h1, h2, h3⟩ := ih s hs hrest
      refine ⟨by simpa [resolve_scan_tail, hc] using h1, ?_, ?_⟩
      · intro u hu
        simp only [resolve_scan_tail, hc, if_neg] at hu
        simp at hu
        rcases hu with rfl | hu
        · exact ht
        · exact h2 u hu
      · intro x
        have h4 := h3 x
        simp only [resolve_scan_tail, hc, if_neg]
        simp [totalCount_cons]
        omega

theorem resolve_scan_tail_true (l : List Sec) :
    ∀ s : Sec, (resolve_scan_tail s l).2.2 = true →
      (resolve_scan_tail s l).2.1.length < l.length := by
  induction l with
  | nil => intro s ha; simp [resolve_scan_tail] at ha
  | cons t rr ihr =>
    intro s ha
    by_cases hc : 0 < rect_intersection_area s.region t.region
    · have := resolve_scan_tail_len (merge_sections s t) rr
      simp only [resolve_scan_tail, hc, if_pos]
      simpa using Nat.lt_succ_of_le this
    · have ha2 : (resolve_scan_tail s rr).2.2 = true := by
        simpa [resolve_scan_tail, hc] using ha
      have := ihr s ha2
      simp only [resolve_scan_tail, hc, if_neg]
      simpa using Nat.succ_lt_succ this

theorem resolve_sweep_len : ∀ (n : Nat) (l : List Sec), l.length ≤ n →
    (resolve_sweep l).1.length ≤ l.length := by
  intro n
  induction n with
  | zero =>
    intro l hl
    rw [List.length_eq_zero.mp (Nat.le_zero.mp hl)]
    simp [resolve_sweep]
  | succ n ih =>
    intro l hl
    match l with
    | [] => simp [resolve_sweep]
    | s :: rest =>
      have hl2 : rest.length ≤ n := by simpa using hl
      have hscan := resolve_scan_tail_len s rest
      have hrec := ih (resolve_scan_tail s rest).2.1 (hscan.trans hl2)
      simp only [resolve_sweep]
      simpa using Nat.succ_le_succ (hrec.trans hscan)

theorem resolve_sweep_false : ∀ (n : Nat) (l : List Sec), l.length ≤ n →
    (resolve_sweep l).2 = false → (resolve_sweep l).1 = l ∧ NoOverlap l := by
  intro n
  induction n with
  | zero =>
    intro l hl _
    rw [List.length_eq_zero.mp (Nat.le_zero.mp hl)]
    simp [resolve_sweep, NoOverlap]
  | succ n ih =>
    intro l hl hfalse
    match l with
    | [] => simp [resolve_sweep, NoOverlap]
    | s :: rest =>
      simp only [resolve_sweep] at hfalse
      have hb : (resolve_sweep (resolve_scan_tail s rest).2.1).2 = false := by
        rcases Bool.or_eq_false_iff.mp (by simpa using hfalse) with ⟨_, h2⟩
        exact h2
      have ha : (resolve_scan_tail s rest).2.2 = false := by
        rcases Bool.or_eq_false_iff.mp (by simpa using hfalse) with ⟨h1, _⟩
        exact h1
      obtain ⟨hs1, hs2, hs3⟩ := resolve_scan_tail_false rest s ha
      have hlen : (resolve_scan_tail s rest).2.1.length ≤ n := by
        have := resolve_scan_tail_len s rest
        have hl2 : rest.length ≤ n := by simpa using hl
        omega
      obtain ⟨hrec1, hrec2⟩ := ih (resolve_scan_tail s rest).2.1 hlen hb
      constructor
      · simp only [resolve_sweep]
        rw [hs1, hrec1, hs2]
      · rw [hs2] at hrec2
        exact List.Pairwise.cons hs3 hrec2

theorem resolve_sweep_true : ∀ (n : Nat) (l : List Sec), l.length ≤ n →
    (resolve_sweep l).2 = true → (resolve_sweep l).1.length < l.length := by
  intro n
  induction n with
  | zero =>
    intro l hl htrue
    rw [List.length_eq_zero.mp (Nat.le_zero.mp hl)] at htrue ⊢
    simp [resolve_sweep] at htrue
  | succ n ih =>
    intro l hl htrue
    match l with
    | [] => simp [resolve_sweep] at htrue
    | s :: rest =>
      have hl2 : rest.length ≤ n := by simpa using hl
      have hscan := resolve_scan_tail_len s rest
      simp only [resolve_sweep] at htrue
      rcases Bool.or_eq_true_iff.mp (by simpa using htrue) with ha | hb
      · have hrec := resolve_sweep_len n (resolve_scan_tail s rest).2.1 (by omega)
        have hstrict := resolve_scan_tail_true rest s ha
        simp only [resolve_sweep]
        simpa using Nat.succ_le_succ (hrec.trans_lt hstrict)
      · have hrec := ih (resolve_scan_tail s rest).2.1 (by omega) hb
        simp only [resolve_sweep]
        have := hrec.trans_le hscan
        simpa using Nat.succ_lt_succ this

theorem resolve_sweep_ids : ∀ (n : Nat) (l : List Sec), l.length ≤ n → AllSome l →
    AllSome (resolve_sweep l).1 ∧ ∀ x, totalCount (resolve_sweep l).1 x = totalCount l x := by
  intro n
  induction n with
  | zero =>
    intro l hl _
    rw [List.length_eq_zero.mp (Nat.le_zero.mp hl)]
    simp [resolve_sweep, AllSome]
  | succ n ih =>
    intro l hl hsome
    match l with
    | [] => simp [resolve_sweep, AllSome]
    | s :: rest =>
      have hl2 : rest.length ≤ n := by simpa using hl
      have hs : s.element_ids.isSome := hsome s (List.mem_cons_self s rest)
      have hrest : AllSome rest := fun u hu => hsome u (List.mem_cons_of_mem s hu)
      obtain ⟨h1, h2, h3⟩ := resolve_scan_tail_ids rest s hs hrest
      have hlen : (resolve_scan_tail s rest).2.1.length ≤ n :=
        (resolve_scan_tail_len s rest).trans hl2
      obtain ⟨hrec1, hrec2⟩ := ih (resolve_scan_tail s rest).2.1 hlen h2
      constructor
      · intro u hu
        simp only [resolve_sweep] at hu
        simp at hu
        rcases hu with rfl | hu
        · exact h1
        · exact hrec1 u hu
      · intro x
        simp only [resolve_sweep]
        rw [totalCount_cons, totalCount_cons, hrec2 x]
        exact h3 x

theorem resolve_overlaps_loop_noov : ∀ (fuel : Nat) (l : List Sec), l.length < fuel →
    NoOverlap (resolve_overlaps_loop fuel l) := by
  intro fuel
  induction fuel with
  | zero => intro l hl; omega
  | succ fuel ih =>
    intro l hl
    simp only [resolve_overlaps_loop]
    by_cases hc : (resolve_sweep l).2 = true
    · rw [if_pos hc]
      have := resolve_sweep_true l.length l le_rfl hc
      exact ih _ (by omega)
    · rw [if_neg hc]
      obtain ⟨heq, hno⟩ := resolve_sweep_false l.length l le_rfl (by simpa using hc)
      rw [heq]
      exact hno

theorem resolve_overlaps_noov (sections : List Sec) : NoOverlap (resolve_overlaps sections) :=
  resolve_overlaps_loop_noov (sections.length + 1) sections (Nat.lt_succ_self _)

theorem resolve_overlaps_loop_ids (fuel : Nat) : ∀ (l : List Sec), AllSome l →
    AllSome (resolve_overlaps_loop fuel l) ∧
      ∀ x, totalCount (resolve_overlaps_loop fuel l) x = totalCount l x := by
  induction fuel with
  | zero => intro l h; exact ⟨h, fun _ => rfl⟩
  | succ fuel ih =>
    intro l h
    obtain ⟨h1, h2⟩ := resolve_sweep_ids l.length l le_rfl h
    simp only [resolve_overlaps_loop]
    by_cases hc : (resolve_sweep l).2 = true
    · rw [if_pos hc]
      obtain ⟨g1, g2⟩ := ih (resolve_sweep l).1 h1
      exact ⟨g1, fun x => (g2 x).trans (h2 x)⟩
    · rw [if_neg hc]
      exact ⟨h1, h2⟩

theorem resolve_overlaps_ids (l : List Sec) (h : AllSome l) :
    AllSome (resolve_overlaps l) ∧ ∀ x, totalCount (resolve_overlaps l) x = totalCount l x :=
  resolve_overlaps_loop_ids _ l h

theorem resolve_overlaps_pair_merge (a b : Sec)
    (h : 0 < rect_intersection_area a.region b.region) :
    resolve_overlaps [a, b] = [merge_sections a b] := by
  simp [resolve_overlaps, resolve_overlaps_loop, resolve_sweep, resolve_scan_tail, h]

theorem resolve_overlaps_singleton (s : Sec) : resolve_overlaps [s] = [s] := by
  simp [resolve_overlaps, resolve_overlaps_loop, resolve_sweep, resolve_scan_tail]

/-- C7: overlap resolution repeatedly merges overlapping region pairs
(bbox union, names joined with " + ", non-metadata displacing metadata,
differing non-metadata types giving "mixed") until no two remaining
regions overlap; in particular Intro [0,0,10,10] and Chart [5,5,15,15]
resolve to the single region "Intro + Chart" with bbox [0,0,15,15]. -/
theorem C7_overlap_resolution :
    (∀ sections : List Sec, NoOverlap (resolve_overlaps sections)) ∧
    (∀ a b : Sec, 0 < rect_intersection_area a.region b.region →
      resolve_overlaps [a, b] = [merge_sections a b]) ∧
    (∀ a b : Sec, (merge_sections a b).region = bbox_union a.region b.region ∧
      (merge_sections a b).name = a.name ++ " + " ++ b.name) ∧
    (∀ a b : Sec, a.content_type = "metadata" →
      (merge_sections a b).content_type = b.content_type) ∧
    (∀ a b : Sec, a.content_type ≠ "metadata" → b.content_type = "metadata" →
      (merge_sections a b).content_type = a.content_type) ∧
    (∀ a b : Sec, a.content_type ≠ "metadata" → b.content_type ≠ "metadata" →
      a.content_type ≠ b.content_type → (merge_sections a b).content_type = "mixed") ∧
    resolve_overlaps [c7intro, c7chart] =
      [{ name := "Intro + Chart", content_type := "mixed", region := ⟨0, 0, 15, 15⟩ }] := by
  refine ⟨resolve_overlaps_noov, resolve_overlaps_pair_merge, ?_, ?_, ?_, ?_, ?_⟩
  · intro a b; exact ⟨rfl, rfl⟩
  · intro a b h; simp [merge_sections, h]
  · intro a b ha hb; simp [merge_sections, ha, hb]
  · intro a b ha hb hne; simp [merge_sections, ha, hb, hne]
  · have hov : 0 < rect_intersection_area c7intro.region c7chart.region := by
      norm_num [rect_intersection_area, c7intro, c7chart, min_def, max_def]
    rw [resolve_overlaps_pair_merge c7intro c7chart hov]
    simp [merge_sections, bbox_union, c7intro, c7chart, min_def, max_def]
    norm_num

/-- Witness for C7 at concrete inputs: the non-metadata type displaces
the metadata footer in a merge. -/
theorem C7_overlap_resolution_witness :
    (merge_sections
      { name := "Footer", content_type := "metadata", region := ⟨0, 90, 100, 100⟩ }
      { name := "Chart", content_type := "chart", region := ⟨0, 95, 50, 100⟩ }).content_type
      = "chart" :=
  C7_overlap_resolution.2.2.2.1
    { name := "Footer", content_type := "metadata", region := ⟨0, 90, 100, 100⟩ }
    { name := "Chart", content_type := "chart", region := ⟨0, 95, 50, 100⟩ } rfl

/-!
Lemmas about element assignment.
-/

theorem push_id_length (l : List Sec) (i : Nat) (x : String) :
    (push_id l i x).length = l.length := by
  induction l generalizing i with
  | nil => simp [push_id]
  | cons s rest ih =>
    match i with
    | 0 => simp [push_id]
    | j + 1 => simp [push_id, ih]

theorem push_id_allsome (l : List Sec) (i : Nat) (x : String) (h : AllSome l) :
    AllSome (push_id l i x) := by
  induction l generalizing i with
  | nil => simpa [push_id] using h
  | cons s rest ih =>
    have hs := h s (List.mem_cons_self s rest)
    have hrest : AllSome rest := fun u hu => h u (List.mem_cons_of_mem s hu)
    match i with
    | 0 =>
      intro u hu
      simp only [push_id] at hu
      rcases List.mem_cons.mp hu with rfl | hu
      · obtain ⟨ids, hids⟩ := Option.isSome_iff_exists.mp hs
        simp [hids]
      · exact hrest u hu
    | j + 1 =>
      intro u hu
      simp only [push_id] at hu
      rcases List.mem_cons.mp hu with rfl | hu
      · exact hs
      · exact ih j hrest u hu

theorem push_id_count (l : List Sec) (i : Nat) (x y : String) (h : AllSome l)
    (hi : i < l.length) :
    totalCount (push_id l i x) y = totalCount l y + (if x = y then 1 else 0) := by
  induction l generalizing i with
  | nil => simp at hi
  | cons s rest ih =>
    have hs := h s (List.mem_cons_self s rest)
    have hrest : AllSome rest := fun u hu => h u (List.mem_cons_of_mem s hu)
    match i with
    | 0 =>
      obtain ⟨ids, hids⟩ := Option.isSome_iff_exists.mp hs
      simp only [push_id, hids, totalCount_cons, idsOf]
      by_cases hxy : x = y
      · simp [hxy, List.count_append]
        omega
      · have hyx : (y == x) = false := by
          simpa using fun hh => hxy hh.symm
        simp [hxy, List.count_append, List.count_cons, hyx]
    | j + 1 =>
      have hj : j < rest.length := by simpa using hi
      simp only [push_id, totalCount_cons, ih j hrest hj]
      omega

theorem pick_fold_mem (key : Nat → ℚ × Nat) :
    ∀ (l : List Nat) (acc : Option Nat) (b : Nat),
      l.foldl (pick_step key) acc = some b → acc = some b ∨ b ∈ l := by
  intro l
  induction l with
  | nil => exact fun acc b h => Or.inl h
  | cons si rest ih =>
    intro acc b h
    rcases ih (pick_step key acc si) b h with hacc | hb
    · match acc with
      | none =>
        simp [pick_step] at hacc
        exact Or.inr (by simp [hacc])
      | some m =>
        by_cases hk : keyLt (key si) (key m) = true
        · simp [pick_step, hk] at hacc
          exact Or.inr (by simp [hacc])
        · simp [pick_step, hk] at hacc
          exact Or.inl (by simp [hacc])
    · exact Or.inr (List.mem_cons_of_mem _ hb)

theorem pick_fold_isSome (key : Nat → ℚ × Nat) :
    ∀ (l : List Nat) (acc : Option Nat), acc.isSome →
      (l.foldl (pick_step key) acc).isSome := by
  intro l
  induction l with
  | nil => exact fun acc h => h
  | cons si rest ih =>
    intro acc h
    refine ih (pick_step key acc si) ?_
    match acc with
    | none => simp at h
    | some m =>
      by_cases hk : keyLt (key si) (key m) = true <;> simp [pick_step, hk]

theorem pick_best_spec (key : Nat → ℚ × Nat) (l : List Nat) (hl : l ≠ []) :
    ∃ b, pick_best key l = some b ∧ b ∈ l := by
  match l with
  | si :: rest =>
    have h1 : (pick_best key (si :: rest)).isSome := by
      unfold pick_best
      rw [List.foldl_cons]
      exact pick_fold_isSome key rest (pick_step key none si) (by simp [pick_step])
    obtain ⟨b, hb⟩ := Option.isSome_iff_exists.mp h1
    refine ⟨b, hb, ?_⟩
    rcases pick_fold_mem key (si :: rest) none b hb with hacc | hm
    · simp at hacc
    · exact hm

theorem mem_containing_lt (secs : List Sec) (cx cy : ℚ) (si : Nat)
    (h : si ∈ containing_indices secs cx cy) : si < secs.length := by
  have := List.mem_filter.mp h
  simpa using List.mem_range.mp this.1

theorem choose_index_lt (secs : List Sec) (el : PElem) (h : secs ≠ []) :
    choose_index secs el < secs.length := by
  have hlen : 0 < secs.length := List.length_pos.mpr h
  unfold choose_index
  dsimp only
  split
  · rename_i si hct
    exact mem_containing_lt secs _ _ si (by rw [hct]; exact List.mem_singleton_self si)
  · rename_i x y rest2 hct
    obtain ⟨b, hb, hbm⟩ := pick_best_spec
      (fun si => (-(rect_intersection_area (secAt secs si).region el.bbox), si))
      (containing_indices secs (centroid_x el.bbox) (centroid_y el.bbox))
      (by rw [hct]; simp)
    simp only [hb, Option.getD_some]
    exact mem_containing_lt secs _ _ b hbm
  · obtain ⟨b, hb, hbm⟩ := pick_best_spec
      (fun si => (axis_distance (secAt secs si).region (centroid_x el.bbox)
        (centroid_y el.bbox), si))
      (List.range secs.length) (by simpa using Nat.pos_iff_ne_zero.mp hlen)
    simp only [hb, Option.getD_some]
    exact List.mem_range.mp hbm

theorem assign_fold_spec (els : List PElem) :
    ∀ (acc : List Sec), AllSome acc → acc ≠ [] →
      (els.foldl (fun a el => push_id a (choose_index a el) el.id) acc).length = acc.length ∧
      AllSome (els.foldl (fun a el => push_id a (choose_index a el) el.id) acc) ∧
      ∀ x, totalCount (els.foldl (fun a el => push_id a (choose_index a el) el.id) acc) x
        = totalCount acc x + (els.map (·.id)).count x := by
  induction els with
  | nil =>
    intro acc h _
    exact ⟨rfl, h, fun x => by simp⟩
  | cons el rest ih =>
    intro acc hsome hne
    have hlt := choose_index_lt acc el hne
    have hlen := push_id_length acc (choose_index acc el) el.id
    have hsome2 := push_id_allsome acc (choose_index acc el) el.id hsome
    have hne2 : push_id acc (choose_index acc el) el.id ≠ [] := by
      intro hh
      rw [hh] at hlen
      simp at hlen
      omega
    obtain ⟨g1, g2, g3⟩ := ih (push_id acc (choose_index acc el) el.id) hsome2 hne2
    refine ⟨by simpa [g1] using hlen, g2, ?_⟩
    intro x
    rw [List.foldl_cons]
    rw [g3 x, push_id_count acc (choose_index acc el) el.id x hsome hlt]
    by_cases hxy : el.id = x
    · simp [hxy, List.count_cons]
      omega
    · have hyx : (x == el.id) = false := by
        simpa using fun hh => hxy hh.symm
      simp [hxy, List.count_cons, hyx]

theorem dedup_ids_spec : ∀ (ids seen acc : List String) (x : String),
    (dedup_ids seen acc ids).1.count x
        = acc.count x + (if x ∈ seen then 0 else min 1 (ids.count x)) ∧
      (x ∈ (dedup_ids seen acc ids).2 ↔ x ∈ seen ∨ x ∈ ids) := by
  intro ids
  induction ids with
  | nil => intro seen acc x; simp [dedup_ids]
  | cons eid rest ih =>
    intro seen acc x
    by_cases he : eid ∈ seen
    · simp only [dedup_ids, if_pos he]
      obtain ⟨h1, h2⟩ := ih seen acc x
      constructor
      · rw [h1]
        by_cases hx : x ∈ seen
        · simp [hx]
        · have hne : ¬ x = eid := fun hh => hx (hh ▸ he)
          have hne2 : ¬ eid = x := fun hh => hne hh.symm
          simp [hx, List.count_cons, hne, hne2]
      · rw [h2]
        constructor
        · rintro (hs | hr)
          · exact Or.inl hs
          · exact Or.inr (List.mem_cons_of_mem _ hr)
        · rintro (hs | hr)
          · exact Or.inl hs
          · rcases List.mem_cons.mp hr with rfl | hr
            · exact Or.inl he
            · exact Or.inr hr
    · simp only [dedup_ids, if_neg he]
      obtain ⟨h1, h2⟩ := ih (eid :: seen) (acc ++ [eid]) x
      by_cases hx : x = eid
      · subst hx
        constructor
        · rw [h1]
          have hxs : x ∈ x :: seen := List.mem_cons_self x seen
          simp [hxs, he, List.count_append, List.count_cons]
        · rw [h2]
          simp
      · have hbe : (x == eid) = false := by simpa using hx
        have hx2 : ¬ eid = x := fun hh => hx hh.symm
        constructor
        · rw [h1]
          have hxa : (acc ++ [eid]).count x = acc.count x := by
            simp [List.count_append, List.count_cons, hbe, hx2]
          rw [hxa]
          by_cases hxs : x ∈ seen
          · simp [hxs, List.mem_cons, hx]
          · have hnotin : ¬ x ∈ eid :: seen := by
              simp [List.mem_cons, hx, hxs]
            simp [hxs, hnotin, List.count_cons, hbe, hx2]
        · rw [h2]
          simp [List.mem_cons, hx]

theorem dedup_sections_spec : ∀ (l : List Sec) (seen : List String) (x : String),
    AllSome (dedup_sections seen l) ∧
      totalCount (dedup_sections seen l) x
        = if x ∈ seen then 0 else min 1 (totalCount l x) := by
  intro l
  induction l with
  | nil =>
    intro seen x
    constructor
    · intro u hu; simp [dedup_sections] at hu
    · simp [dedup_sections, totalCount]
  | cons s rest ih =>
    intro seen x
    obtain ⟨hids1, hids2⟩ := dedup_ids_spec (idsOf s) seen [] x
    obtain ⟨hrec1, hrec2⟩ := ih (dedup_ids seen [] (idsOf s)).2 x
    constructor
    · intro u hu
      simp only [dedup_sections] at hu
      rcases List.mem_cons.mp hu with rfl | hu
      · simp
      · exact hrec1 u hu
    · simp only [dedup_sections, totalCount_cons]
      have hfront : idsOf { s with element_ids := some (dedup_ids seen [] (idsOf s)).1 }
          = (dedup_ids seen [] (idsOf s)).1 := by simp [idsOf]
      rw [hfront, hrec2, hids1]
      by_cases hxs : x ∈ seen
      · simp [hxs, hids2]
      · by_cases hxi : x ∈ idsOf s
        · have hpos : 0 < (idsOf s).count x := List.count_pos_iff.mpr hxi
          have hmem2 : x ∈ (dedup_ids seen [] (idsOf s)).2 := hids2.mpr (Or.inr hxi)
          simp [hxs, hmem2]
          omega
        · have hzero : (idsOf s).count x = 0 := by
            rw [List.count_eq_zero]
            exact hxi
          have hmem2 : ¬ x ∈ (dedup_ids seen [] (idsOf s)).2 := by
            rw [hids2]
            simp [hxs, hxi]
          simp [hxs, hmem2, hzero]

theorem totalCount_reset (sections : List Sec) (x : String) :
    totalCount (sections.map fun s => { s with element_ids := some ([] : List String) }) x
      = 0 := by
  induction sections with
  | nil => simp [totalCount]
  | cons s rest ih => simpa [totalCount_cons, idsOf] using ih

theorem assign_elements_nonempty_spec (pm : PageMap) (sections : List Sec)
    (hne : sections ≠ []) :
    AllSome (assign_elements_to_sections pm sections) ∧
      ∀ x, totalCount (assign_elements_to_sections pm sections) x
        = min 1 ((pm.elements.map (·.id)).count x) := by
  match sections with
  | s0 :: srest =>
    have hstart_some : AllSome ((s0 :: srest).map fun s =>
        { s with element_ids := some ([] : List String) }) := by
      intro u hu
      obtain ⟨v, _, rfl⟩ := List.mem_map.mp hu
      simp
    have hstart_ne : ((s0 :: srest).map fun s =>
        { s with element_ids := some ([] : List String) }) ≠ [] := by simp
    obtain ⟨g1, g2, g3⟩ := assign_fold_spec pm.elements _ hstart_some hstart_ne
    constructor
    · intro u hu
      simp only [assign_elements_to_sections] at hu
      exact (dedup_sections_spec _ [] u.name).1 u hu
    · intro x
      simp only [assign_elements_to_sections]
      rw [(dedup_sections_spec _ [] x).2, g3 x, totalCount_reset]
      simp

theorem recompute_sec_ids (pm : PageMap) (s : Sec) :
    (recompute_sec pm s).element_ids = s.element_ids := by
  unfold recompute_sec
  rcases h : s.element_ids with _ | ⟨_ | ⟨i0, irest⟩⟩
  · exact h
  · exact h
  · rcases hbx : (i0 :: irest).filterMap
      (fun eid => (element_by_id pm.elements eid).map (·.bbox)) with _ | ⟨b, bs⟩
    · simp [hbx, h]
    · simp [hbx, h]

theorem recompute_regions_ids (pm : PageMap) (l : List Sec) :
    (AllSome l → AllSome (recompute_regions pm l)) ∧
      ∀ x, totalCount (recompute_regions pm l) x = totalCount l x := by
  constructor
  · intro h u hu
    obtain ⟨v, hv, rfl⟩ := List.mem_map.mp hu
    have hsome := h v hv
    rw [Option.isSome_iff_exists] at hsome ⊢
    obtain ⟨ids, hids⟩ := hsome
    exact ⟨ids, by rw [recompute_sec_ids, hids]⟩
  · intro x
    unfold recompute_regions
    induction l with
    | nil => simp [totalCount]
    | cons s rest ih =>
      rw [List.map_cons, totalCount_cons, totalCount_cons, ih]
      have : idsOf (recompute_sec pm s) = idsOf s := by
        unfold idsOf
        rw [recompute_sec_ids]
      rw [this]

theorem filter_keep_ids (l : List Sec) (h : AllSome l) (x : String) :
    totalCount (l.filter keep_section) x = totalCount l x := by
  induction l with
  | nil => simp
  | cons s rest ih =>
    have hs := h s (List.mem_cons_self s rest)
    have hrest : AllSome rest := fun u hu => h u (List.mem_cons_of_mem s hu)
    by_cases hk : keep_section s = true
    · rw [List.filter_cons_of_pos hk, totalCount_cons, totalCount_cons, ih hrest]
    · obtain ⟨ids, hids⟩ := Option.isSome_iff_exists.mp hs
      have hempty : ids = [] := by
        rcases ids with _ | ⟨i, irest⟩
        · rfl
        · exact absurd (by simp [keep_section, hids]) hk
      rw [List.filter_cons_of_neg (by simpa using hk), totalCount_cons, ih hrest]
      simp [idsOf, hids, hempty]

theorem filter_allsome (l : List Sec) (p : Sec → Bool) (h : AllSome l) :
    AllSome (l.filter p) :=
  fun u hu => h u (List.mem_of_mem_filter hu)

theorem totalCount_perm {l1 l2 : List Sec} (h : l1.Perm l2) (x : String) :
    totalCount l1 x = totalCount l2 x :=
  List.Perm.sum_eq (h.map _)

theorem rect_intersection_area_comm (a b : Box) :
    rect_intersection_area a b = rect_intersection_area b a := by
  unfold rect_intersection_area
  rw [max_comm a.x0 b.x0, max_comm a.y0 b.y0, min_comm a.x1 b.x1, min_comm a.y1 b.y1]

theorem noov_perm {l1 l2 : List Sec} (h : l1.Perm l2) (hno : NoOverlap l1) :
    NoOverlap l2 := by
  refine (List.Perm.pairwise_iff ?_ h).mp hno
  intro a b hab hpos
  rw [rect_intersection_area_comm] at hpos
  exact hab hpos

theorem countP_perm {l1 l2 : List Sec} (h : l1.Perm l2) (p : Sec → Bool) :
    l1.countP p = l2.countP p :=
  h.countP_eq p

theorem totalCount_zero_countP (l : List Sec) (x : String) (h : totalCount l x = 0) :
    l.countP (fun s => decide (x ∈ idsOf s)) = 0 := by
  induction l with
  | nil => simp
  | cons s rest ih =>
    rw [totalCount_cons] at h
    have h1 : (idsOf s).count x = 0 := by omega
    have h2 : totalCount rest x = 0 := by omega
    have hx : x ∉ idsOf s := by
      rw [← List.count_eq_zero]
      exact h1
    rw [List.countP_cons]
    simp [hx, ih h2]

theorem totalCount_one_countP (l : List Sec) (x : String) (h : totalCount l x = 1) :
    l.countP (fun s => decide (x ∈ idsOf s)) = 1 := by
  induction l with
  | nil => simp [totalCount] at h
  | cons s rest ih =>
    rw [totalCount_cons] at h
    by_cases hs : x ∈ idsOf s
    · have hpos : 0 < (idsOf s).count x := List.count_pos_iff.mpr hs
      have hz : totalCount rest x = 0 := by omega
      rw [List.countP_cons]
      simp [hs, totalCount_zero_countP rest x hz]
    · have hzero : (idsOf s).count x = 0 := by
        rw [List.count_eq_zero]
        exact hs
      rw [List.countP_cons]
      simp [hs, ih (by omega)]

/-- C1: for every page map and proposed layout, the final section list
of apply_layout_to_page is pairwise non-overlapping, and the id of every
input page element appears in the element-id list of exactly one final
section. -/
theorem C1_final_partition (pm : PageMap) (layout : List Sec) :
    NoOverlap (apply_layout_to_page pm layout) ∧
      ∀ e ∈ pm.elements,
        (apply_layout_to_page pm layout).countP (fun s => decide (e.id ∈ idsOf s)) = 1 := by
  unfold apply_layout_to_page
  have hperm := List.mergeSort_perm
    ((resolve_overlaps (recompute_regions pm (assign_elements_to_sections pm
      (resolve_overlaps (clip_headers pm.header_separator_y layout))))).filter keep_section)
    reading_order_le
  constructor
  · refine noov_perm hperm.symm ?_
    exact List.Pairwise.filter _ (resolve_overlaps_noov _)
  · intro e he
    rw [countP_perm hperm (fun s => decide (e.id ∈ idsOf s))]
    by_cases hl1 : resolve_overlaps (clip_headers pm.header_separator_y layout) = []
    · -- zero proposed regions: the synthetic Page section
      rw [hl1]
      have hids : (recompute_sec pm (page_section pm)).element_ids
          = some (pm.elements.map (·.id)) := by
        rw [recompute_sec_ids]
        rfl
      have hmem : e.id ∈ pm.elements.map (·.id) := List.mem_map_of_mem _ he
      have hne : pm.elements.map (·.id) ≠ [] := by
        intro hh
        rw [hh] at hmem
        simp at hmem
      simp only [assign_elements_to_sections, recompute_regions, List.map_cons, List.map_nil]
      rw [resolve_overlaps_singleton]
      have hkeep : keep_section (recompute_sec pm (page_section pm)) = true := by
        unfold keep_section
        rw [hids]
        rcases hmm : pm.elements.map (·.id) with _ | ⟨i, irest⟩
        · exact absurd hmm hne
        · rw [hmm]
      rw [List.filter_cons_of_pos hkeep, List.filter_nil]
      rw [List.countP_cons]
      have hin : e.id ∈ idsOf (recompute_sec pm (page_section pm)) := by
        unfold idsOf
        rw [hids]
        exact hmem
      simp [hin]
    · -- at least one region: count the id through the pipeline
      obtain ⟨hsome1, hcount1⟩ := assign_elements_nonempty_spec pm _ hl1
      have hmem : e.id ∈ pm.elements.map (·.id) := List.mem_map_of_mem _ he
      have hpos : 0 < (pm.elements.map (·.id)).count e.id := List.count_pos_iff.mpr hmem
      have h1 : totalCount (assign_elements_to_sections pm
          (resolve_overlaps (clip_headers pm.header_separator_y layout))) e.id = 1 := by
        rw [hcount1 e.id]
        omega
      obtain ⟨hsome2, hcount2⟩ := recompute_regions_ids pm
        (assign_elements_to_sections pm (resolve_overlaps (clip_headers pm.header_separator_y layout)))
      have hsome2' := hsome2 hsome1
      obtain ⟨hsome3, hcount3⟩ := resolve_overlaps_ids _ hsome2'
      have h3 : totalCount (resolve_overlaps (recompute_regions pm
          (assign_elements_to_sections pm
            (resolve_overlaps (clip_headers pm.header_separator_y layout))))) e.id = 1 := by
        rw [hcount3 e.id, hcount2 e.id, h1]
      have h4 := filter_keep_ids _ hsome3 e.id
      exact totalCount_one_countP _ _ (by rw [h4, h3])

/-- Witness for C1 at a concrete page map and layout. -/
theorem C1_final_partition_witness :
    (apply_layout_to_page c1pm c1layout).countP
      (fun s => decide ("E1" ∈ idsOf s)) = 1 :=
  (C1_final_partition c1pm c1layout).2
    { id := "E1", type := "text", bbox := ⟨1, 1, 3, 3⟩, content := some "a" }
    (List.mem_cons_self _ _)

/-!
Minimality of the pick_best loop, through the lexicographic order on
the Python comparison tuples.
-/

theorem keyLt_iff_lex (a b : ℚ × Nat) :
    keyLt a b = true ↔ toLex a < toLex b := by
  rw [Prod.Lex.lt_iff]
  simp [keyLt]

theorem pick_fold_min (key : Nat → ℚ × Nat) :
    ∀ (l : List Nat) (m : Nat), ∃ b, l.foldl (pick_step key) (some m) = some b ∧
      (b = m ∨ b ∈ l) ∧ toLex (key b) ≤ toLex (key m) ∧
      ∀ a ∈ l, toLex (key b) ≤ toLex (key a) := by
  intro l
  induction l with
  | nil => intro m; exact ⟨m, rfl, Or.inl rfl, le_refl _, by simp⟩
  | cons si rest ih =>
    intro m
    by_cases hk : keyLt (key si) (key m) = true
    · have hk2 : toLex (key si) < toLex (key m) := (keyLt_iff_lex _ _).mp hk
      obtain ⟨b, hb, hmem, hle, hall⟩ := ih si
      refine ⟨b, by simpa [pick_step, hk] using hb, ?_, hle.trans hk2.le, ?_⟩
      · rcases hmem with rfl | hm
        · exact Or.inr (List.mem_cons_self _ _)
        · exact Or.inr (List.mem_cons_of_mem _ hm)
      · intro a ha
        rcases List.mem_cons.mp ha with rfl | ha
        · exact hle
        · exact hall a ha
    · have hk2 : toLex (key m) ≤ toLex (key si) :=
        le_of_not_lt fun hlt => hk ((keyLt_iff_lex _ _).mpr hlt)
      obtain ⟨b, hb, hmem, hle, hall⟩ := ih m
      refine ⟨b, by simpa [pick_step, hk] using hb, ?_, hle, ?_⟩
      · rcases hmem with rfl | hm
        · exact Or.inl rfl
        · exact Or.inr (List.mem_cons_of_mem _ hm)
      · intro a ha
        rcases List.mem_cons.mp ha with rfl | ha
        · exact hle.trans hk2
        · exact hall a ha

theorem pick_best_min (key : Nat → ℚ × Nat) (l : List Nat) (hl : l ≠ []) :
    ∃ b, pick_best key l = some b ∧ b ∈ l ∧ ∀ a ∈ l, toLex (key b) ≤ toLex (key a) := by
  match l with
  | x :: rest =>
    obtain ⟨b, hb, hmem, hle, hall⟩ := pick_fold_min key rest x
    refine ⟨b, ?_, ?_, ?_⟩
    · unfold pick_best
      rw [List.foldl_cons]
      simpa [pick_step] using hb
    · rcases hmem with rfl | hm
      · exact List.mem_cons_self _ _
      · exact List.mem_cons_of_mem _ hm
    · intro a ha
      rcases List.mem_cons.mp ha with rfl | ha
      · exact hle
      · exact hall a ha

theorem choose_index_single (secs : List Sec) (el : PElem) (si : Nat)
    (h : containing_indices secs (centroid_x el.bbox) (centroid_y el.bbox) = [si]) :
    choose_index secs el = si := by
  unfold choose_index
  dsimp only
  split
  · rename_i si2 heq
    rw [h] at heq
    exact (List.cons.injEq _ _ _ _ ▸ heq).1.symm ▸ rfl
  · rename_i x y rest heq
    rw [h] at heq
    simp at heq
  · rename_i heq
    rw [h] at heq
    simp at heq

theorem choose_index_multi (secs : List Sec) (el : PElem) (si sj : Nat) (rest : List Nat)
    (h : containing_indices secs (centroid_x el.bbox) (centroid_y el.bbox)
      = si :: sj :: rest) :
    choose_index secs el ∈ containing_indices secs (centroid_x el.bbox) (centroid_y el.bbox) ∧
      ∀ a ∈ containing_indices secs (centroid_x el.bbox) (centroid_y el.bbox),
        rect_intersection_area (secAt secs a).region el.bbox
            ≤ rect_intersection_area (secAt secs (choose_index secs el)).region el.bbox ∧
          (rect_intersection_area (secAt secs a).region el.bbox
              = rect_intersection_area (secAt secs (choose_index secs el)).region el.bbox →
            choose_index secs el ≤ a) := by
  obtain ⟨b, hb, hbm, hball⟩ := pick_best_min
    (fun si => (-(rect_intersection_area (secAt secs si).region el.bbox), si))
    (containing_indices secs (centroid_x el.bbox) (centroid_y el.bbox)) (by rw [h]; simp)
  have hch : choose_index secs el = b := by
    unfold choose_index
    dsimp only
    split
    · rename_i si2 heq
      rw [h] at heq
      simp at heq
    · rename_i x y rest2 heq
      rw [hb]
      rfl
    · rename_i heq
      rw [h] at heq
      simp at heq
  rw [hch]
  refine ⟨hbm, ?_⟩
  intro a ha
  have := hball a ha
  rw [Prod.Lex.le_iff] at this
  rcases this with hlt | ⟨heq, hle⟩
  · simp only at hlt
    have harea := neg_lt_neg_iff.mp hlt
    exact ⟨harea.le, fun he => absurd he (by exact fun hh => absurd (hh ▸ harea) (lt_irrefl _))⟩
  · simp only at heq hle
    have harea : rect_intersection_area (secAt secs a).region el.bbox
        = rect_intersection_area (secAt secs b).region el.bbox := by
      exact neg_inj.mp heq.symm
    exact ⟨harea.le, fun _ => hle⟩

theorem choose_index_none (secs : List Sec) (el : PElem) (hne : secs ≠ [])
    (h : containing_indices secs (centroid_x el.bbox) (centroid_y el.bbox) = []) :
    ∀ a < secs.length,
      axis_distance (secAt secs (choose_index secs el)).region (centroid_x el.bbox)
          (centroid_y el.bbox)
        ≤ axis_distance (secAt secs a).region (centroid_x el.bbox) (centroid_y el.bbox) ∧
      (axis_distance (secAt secs (choose_index secs el)).region (centroid_x el.bbox)
            (centroid_y el.bbox)
          = axis_distance (secAt secs a).region (centroid_x el.bbox) (centroid_y el.bbox) →
        choose_index secs el ≤ a) := by
  obtain ⟨b, hb, hbm, hball⟩ := pick_best_min
    (fun si => (axis_distance (secAt secs si).region (centroid_x el.bbox)
      (centroid_y el.bbox), si))
    (List.range secs.length)
    (by simpa using Nat.pos_iff_ne_zero.mp (List.length_pos.mpr hne))
  have hch : choose_index secs el = b := by
    unfold choose_index
    dsimp only
    split
    · rename_i si2 heq
      rw [h] at heq
      simp at heq
    · rename_i x y rest2 heq
      rw [h] at heq
      simp at heq
    · rw [hb]
      rfl
  rw [hch]
  intro a ha
  have := hball a (List.mem_range.mpr ha)
  rw [Prod.Lex.le_iff] at this
  rcases this with hlt | ⟨heq, hle⟩
  · simp only at hlt
    exact ⟨hlt.le, fun he => absurd he (by exact fun hh => absurd (hh ▸ hlt) (lt_irrefl _))⟩
  · simp only at heq hle
    exact ⟨heq.le, fun _ => hle⟩

/-- C6 counterexample: with regions A [0,4,10,6] and B [10,2,20,8] and
an element with bbox [8,3,12,7] (centroid (10,5) on the shared
boundary), the code assigns the element to region B by the
inclusive-containment intersection-area rule, while the claimed rule
with strict containment would fall through to the distance tie-break
and assign region A. -/
theorem C6_strict_containment_counterexample :
    choose_index c6secs c6el = 1 ∧ claim_choose_index_strict c6secs c6el = 0 := by
  constructor
  · norm_num [choose_index, containing_indices, contains_point, secAt, defaultSec, c6secs, c6el,
      centroid_x, centroid_y, pick_best, pick_step, keyLt, rect_intersection_area,
      min_def, max_def, List.range_succ]
  · norm_num [claim_choose_index_strict, strictly_contains_point, secAt, defaultSec, c6secs,
      c6el, centroid_x, centroid_y, pick_best, pick_step, keyLt, axis_distance, abs,
      min_def, max_def, List.range_succ]

/-- C6 (amended): elements are assigned by centroid with inclusive
(boundary-counting) containment: a centroid contained in exactly one
region bbox goes there; one contained in several goes to the region
with the largest intersection with the element bbox, ties to the lowest
index; one contained in none goes to the region with the smallest
squared axis-wise distance, ties to the lowest index; with zero regions
every element joins the synthetic full-page "Page" region. -/
theorem C6_element_assignment (pm : PageMap) (secs : List Sec) (el : PElem)
    (hne : secs ≠ []) :
    (assign_elements_to_sections pm [] = [page_section pm]) ∧
    choose_index secs el < secs.length ∧
    (∀ si, containing_indices secs (centroid_x el.bbox) (centroid_y el.bbox) = [si] →
      choose_index secs el = si) ∧
    (∀ si sj rest, containing_indices secs (centroid_x el.bbox) (centroid_y el.bbox)
        = si :: sj :: rest →
      choose_index secs el ∈ containing_indices secs (centroid_x el.bbox) (centroid_y el.bbox) ∧
        ∀ a ∈ containing_indices secs (centroid_x el.bbox) (centroid_y el.bbox),
          rect_intersection_area (secAt secs a).region el.bbox
              ≤ rect_intersection_area (secAt secs (choose_index secs el)).region el.bbox ∧
            (rect_intersection_area (secAt secs a).region el.bbox
                = rect_intersection_area (secAt secs (choose_index secs el)).region el.bbox →
              choose_index secs el ≤ a)) ∧
    (containing_indices secs (centroid_x el.bbox) (centroid_y el.bbox) = [] →
      ∀ a < secs.length,
        axis_distance (secAt secs (choose_index secs el)).region (centroid_x el.bbox)
            (centroid_y el.bbox)
          ≤ axis_distance (secAt secs a).region (centroid_x el.bbox) (centroid_y el.bbox) ∧
        (axis_distance (secAt secs (choose_index secs el)).region (centroid_x el.bbox)
              (centroid_y el.bbox)
            = axis_distance (secAt secs a).region (centroid_x el.bbox) (centroid_y el.bbox) →
          choose_index secs el ≤ a)) := by
  refine ⟨rfl, choose_index_lt secs el hne, ?_, ?_, ?_⟩
  · intro si h
    exact choose_index_single secs el si h
  · intro si sj rest h
    exact choose_index_multi secs el si sj rest h
  · intro h
    exact choose_index_none secs el hne h

/-- Witness for C6 at the concrete two-region input. -/
theorem C6_element_assignment_witness :
    choose_index c6secs c6el < c6secs.length :=
  (C6_element_assignment c1pm c6secs c6el (List.cons_ne_nil _ _)).2.1

/-!
Classification of proximity clusters and header separator detection.
-/

/-- C8 counterexample: two merged-type blocks, both without any text
content, stay separate clusters and are both classified "text_block"
with empty content — a cluster with no text-carrying constituent is not
classified "drawing_block" as the claim would require, because the code
tests the type set only. -/
theorem C8_no_text_counterexample :
    (∀ e ∈ c8elements, e.content = none ∧ e.type = "merged") ∧
    ((merge_nearby c8elements PROXIMITY_GAP).map (·.type) = ["text_block", "text_block"]) ∧
    ∀ e ∈ merge_nearby c8elements PROXIMITY_GAP, e.content = none := by
  refine ⟨?_, ?_, ?_⟩
  · intro e he
    simp only [c8elements, List.mem_cons, List.not_mem_nil, or_false] at he
    rcases he with rfl | rfl <;> exact ⟨rfl, rfl⟩
  · norm_num [merge_nearby, c8elements, PROXIMITY_GAP, nearby_loop, nearby_sweep,
      nearby_scan_tail, near_boxes, cluster_of, classify_cluster]
  · norm_num [merge_nearby, c8elements, PROXIMITY_GAP, nearby_loop, nearby_sweep,
      nearby_scan_tail, near_boxes, cluster_of, classify_cluster]

/-- C8 (amended): after the proximity merge, clusters of a list of at
least two elements are classified purely by their constituent type set:
"text_block" when some constituent has type text or merged and all of
them do, "drawing_block" when none has type text or merged (whether or
not any constituent carries an actual text string), and "mixed_block"
otherwise; a list of at most one element is returned unclassified. -/
theorem C8_cluster_classification :
    (∀ c : Cluster,
      ((classify_cluster c).type = "text_block" ↔
        (("text" ∈ c.types ∨ "merged" ∈ c.types) ∧
          ∀ t ∈ c.types, t = "text" ∨ t = "merged")) ∧
      ((classify_cluster c).type = "drawing_block" ↔
        ("text" ∉ c.types ∧ "merged" ∉ c.types)) ∧
      ((classify_cluster c).type = "mixed_block" ↔
        (("text" ∈ c.types ∨ "merged" ∈ c.types) ∧
          ¬ ∀ t ∈ c.types, t = "text" ∨ t = "merged"))) ∧
    ∀ (elements : List PElem) (gap : ℚ), 2 ≤ elements.length →
      merge_nearby elements gap
        = (nearby_loop gap ((elements.map cluster_of).length + 1)
            (elements.map cluster_of)).map classify_cluster := by
  constructor
  · intro c
    by_cases h1 : ("text" ∈ c.types ∨ "merged" ∈ c.types)
    · by_cases h2 : (∀ t ∈ c.types, t = "text" ∨ t = "merged")
      · have htype : (classify_cluster c).type = "text_block" := by
          simp [classify_cluster, h1, h2]
          intro x hx hnx
          exact (h2 x hx).resolve_left hnx
        rw [htype]
        refine ⟨⟨fun _ => ⟨h1, h2⟩, fun _ => rfl⟩, ?_, ?_⟩
        · refine ⟨fun heq => absurd heq (by decide), fun hAB => ?_⟩
          rcases h1 with hh | hh
          · exact absurd hh hAB.1
          · exact absurd hh hAB.2
        · exact ⟨fun heq => absurd heq (by decide), fun hAB => absurd h2 hAB.2⟩
      · have htype : (classify_cluster c).type = "mixed_block" := by
          simp [classify_cluster, h1, h2]
        rw [htype]
        refine ⟨?_, ?_, ⟨fun _ => ⟨h1, h2⟩, fun _ => rfl⟩⟩
        · exact ⟨fun heq => absurd heq (by decide), fun hAB => absurd hAB.2 h2⟩
        · refine ⟨fun heq => absurd heq (by decide), fun hAB => ?_⟩
          rcases h1 with hh | hh
          · exact absurd hh hAB.1
          · exact absurd hh hAB.2
    · have hnt : "text" ∉ c.types := fun hh => h1 (Or.inl hh)
      have hnm : "merged" ∉ c.types := fun hh => h1 (Or.inr hh)
      have htype : (classify_cluster c).type = "drawing_block" := by
        simp [classify_cluster, h1]
      rw [htype]
      refine ⟨?_, ⟨fun _ => ⟨hnt, hnm⟩, fun _ => rfl⟩, ?_⟩
      · exact ⟨fun heq => absurd heq (by decide), fun hAB => absurd hAB.1 h1⟩
      · exact ⟨fun heq => absurd heq (by decide), fun hAB => absurd hAB.1 h1⟩
  · intro els gap h
    unfold merge_nearby
    rw [if_neg (by omega)]

/-- Witness for C8: the classification composition at the concrete
two-element input. -/
theorem C8_cluster_classification_witness :
    merge_nearby c8elements PROXIMITY_GAP
      = (nearby_loop PROXIMITY_GAP ((c8elements.map cluster_of).length + 1)
          (c8elements.map cluster_of)).map classify_cluster :=
  C8_cluster_classification.2 c8elements PROXIMITY_GAP (by simp [c8elements])

theorem foldl_max_spec (c : ℚ) (cs : List ℚ) :
    cs.foldl max c ∈ c :: cs ∧ ∀ z ∈ c :: cs, z ≤ cs.foldl max c := by
  induction cs generalizing c with
  | nil => simp
  | cons d cs ih =>
    obtain ⟨hmem, hbound⟩ := ih (max c d)
    constructor
    · rw [List.foldl_cons]
      rcases List.mem_cons.mp hmem with hm | hm
      · rcases max_choice c d with hcd | hcd
        · rw [hm, hcd]
          exact List.mem_cons_self _ _
        · rw [hm, hcd]
          exact List.mem_cons_of_mem _ (List.mem_cons_self _ _)
      · exact List.mem_cons_of_mem _ (List.mem_cons_of_mem _ hm)
    · intro z hz
      rw [List.foldl_cons]
      have hmax : max c d ≤ cs.foldl max (max c d) :=
        hbound (max c d) (List.mem_cons_self _ _)
      rcases List.mem_cons.mp hz with rfl | hz
      · exact (le_max_left _ _).trans hmax
      · rcases List.mem_cons.mp hz with rfl | hz
        · exact (le_max_right _ _).trans hmax
        · exact hbound z (List.mem_cons_of_mem _ hz)

theorem is_separator_candidate_iff (w h : ℚ) (el : PElem) :
    is_separator_candidate w h el = true ↔
      ((el.type = "line" ∨ el.type = "rect") ∧ el.bbox.y1 - el.bbox.y0 ≤ 3 ∧
        w * (1 / 2) ≤ el.bbox.x1 - el.bbox.x0 ∧ mid_y el ≤ h * (15 / 100)) := by
  simp [is_separator_candidate, and_assoc]

/-- C9 counterexample: a text primitive 2 points thick, spanning 60
percent of a 100-wide page, with midpoint at 1 percent of the page
height, satisfies every geometric condition of the claim yet yields no
header separator, because only line and rect primitives are
candidates. -/
theorem C9_text_primitive_counterexample :
    detect_header_separator [c9textel] 100 100 = none ∧
      c9textel.bbox.y1 - c9textel.bbox.y0 ≤ 3 ∧
      (100 : ℚ) * (1 / 2) ≤ c9textel.bbox.x1 - c9textel.bbox.x0 ∧
      mid_y c9textel ≤ (100 : ℚ) * (15 / 100) := by
  have hc : is_separator_candidate 100 100 c9textel = false := by
    norm_num [is_separator_candidate, c9textel, mid_y]
    decide
  refine ⟨by simp [detect_header_separator, hc], ?_, ?_, ?_⟩ <;>
    norm_num [c9textel, mid_y]

/-- C9 (amended): header separator detection returns a value exactly
when some line or rect primitive is at most 3 points thick, spans at
least half the page width and has its midpoint in the top 15 percent of
the page height; the value returned is the largest candidate midpoint,
and it is the midpoint of one of the candidates. -/
theorem C9_header_separator (raw_elements : List PElem) (w h : ℚ) :
    (detect_header_separator raw_elements w h = none ↔
      ∀ el ∈ raw_elements, ¬ ((el.type = "line" ∨ el.type = "rect") ∧
        el.bbox.y1 - el.bbox.y0 ≤ 3 ∧ w * (1 / 2) ≤ el.bbox.x1 - el.bbox.x0 ∧
        mid_y el ≤ h * (15 / 100))) ∧
    ∀ y, detect_header_separator raw_elements w h = some y →
      (∃ el ∈ raw_elements, is_separator_candidate w h el = true ∧ mid_y el = y) ∧
      ∀ el ∈ raw_elements, ((el.type = "line" ∨ el.type = "rect") ∧
          el.bbox.y1 - el.bbox.y0 ≤ 3 ∧ w * (1 / 2) ≤ el.bbox.x1 - el.bbox.x0 ∧
          mid_y el ≤ h * (15 / 100)) →
        mid_y el ≤ y := by
  constructor
  · constructor
    · intro hn el hel hcond
      have hc : is_separator_candidate w h el = true := (is_separator_candidate_iff w h el).mpr hcond
      unfold detect_header_separator at hn
      rcases hfl : (raw_elements.filter (is_separator_candidate w h)).map mid_y
        with _ | ⟨c, cs⟩
      · have : el ∈ raw_elements.filter (is_separator_candidate w h) :=
          List.mem_filter.mpr ⟨hel, hc⟩
        have : mid_y el ∈ (raw_elements.filter (is_separator_candidate w h)).map mid_y :=
          List.mem_map_of_mem _ this
        rw [hfl] at this
        simp at this
      · rw [hfl] at hn
        simp at hn
    · intro hall
      unfold detect_header_separator
      rcases hfl : (raw_elements.filter (is_separator_candidate w h)).map mid_y
        with _ | ⟨c, cs⟩
      · rfl
      · exfalso
        have hc : c ∈ (raw_elements.filter (is_separator_candidate w h)).map mid_y := by
          rw [hfl]
          exact List.mem_cons_self _ _
        obtain ⟨el, helf, _⟩ := List.mem_map.mp hc
        obtain ⟨hel, hcand⟩ := List.mem_filter.mp helf
        exact hall el hel ((is_separator_candidate_iff w h el).mp hcand)
  · intro y hy
    unfold detect_header_separator at hy
    rcases hfl : (raw_elements.filter (is_separator_candidate w h)).map mid_y
      with _ | ⟨c, cs⟩
    · rw [hfl] at hy
      simp at hy
    · rw [hfl] at hy
      simp only [Option.some.injEq] at hy
      obtain ⟨hmem, hbound⟩ := foldl_max_spec c cs
      constructor
      · have : y ∈ c :: cs := hy ▸ hmem
        rw [← hfl] at this
        obtain ⟨el, helf, hmid⟩ := List.mem_map.mp this
        obtain ⟨hel, hcand⟩ := List.mem_filter.mp helf
        exact ⟨el, hel, hcand, hmid⟩
      · intro el hel hcond
        have hc : is_separator_candidate w h el = true :=
          (is_separator_candidate_iff w h el).mpr hcond
        have : mid_y el ∈ (raw_elements.filter (is_separator_candidate w h)).map mid_y :=
          List.mem_map_of_mem _ (List.mem_filter.mpr ⟨hel, hc⟩)
        rw [hfl] at this
        exact hy ▸ hbound (mid_y el) this

/-- Witness for C9: a concrete line primitive produces its midpoint as
the separator, and the characterization applies to it. -/
theorem C9_header_separator_witness :
    (∃ el ∈ [{ id := "", type := "line", bbox := ⟨0, 0, 60, 2⟩ : PElem }],
      is_separator_candidate 100 100 el = true ∧ mid_y el = 1) ∧
    ∀ el ∈ [{ id := "", type := "line", bbox := ⟨0, 0, 60, 2⟩ : PElem }],
      ((el.type = "line" ∨ el.type = "rect") ∧
        el.bbox.y1 - el.bbox.y0 ≤ 3 ∧ (100 : ℚ) * (1 / 2) ≤ el.bbox.x1 - el.bbox.x0 ∧
        mid_y el ≤ (100 : ℚ) * (15 / 100)) →
      mid_y el ≤ 1 :=
  (C9_header_separator [{ id := "", type := "line", bbox := ⟨0, 0, 60, 2⟩ }] 100 100).2 1
    (by
      have hc : is_separator_candidate 100 100
          { id := "", type := "line", bbox := ⟨0, 0, 60, 2⟩ } = true := by
        norm_num [is_separator_candidate, mid_y]
      simp [detect_header_separator, hc, mid_y])

/-!
Job store reconciliation and pipeline traces.
-/

/-- C2 counterexample: reconciling a job with all three stages running
marks all three failed, but the only recorded message is the string
"Interrupted by backend restart" in the single analysis_error field of
the record — not the claimed sentinel "interrupted by restart", and the
global and section stages have no error field at all. -/
theorem C2_sentinel_counterexample :
    (reconcile_job c2job).analysis_status = .failed ∧
    (reconcile_job c2job).global_analysis_status = .failed ∧
    (reconcile_job c2job).section_analysis_status = .failed ∧
    (reconcile_job c2job).analysis_error = some "Interrupted by backend restart" ∧
    (reconcile_job c2job).analysis_error ≠ some "interrupted by restart" := by
  refine ⟨?_, ?_, ?_, ?_, ?_⟩ <;>
    simp [reconcile_job, c2job, RUN_INTERRUPTED_ERROR]

/-- C2 (amended): at load time every stage found running is forced to
failed; the sentinel message "Interrupted by backend restart" is
recorded only in the analysis_error field of the detection stage, the
record having no error field for the global and section stages;
non-running stages are untouched; and the snapshot is re-persisted
exactly when some stage of some job was running. -/
theorem C2_reconcile (jobs : List JobMetadata) (j : JobMetadata) :
    (j.analysis_status = .running →
      (reconcile_job j).analysis_status = .failed ∧
        (reconcile_job j).analysis_error = some RUN_INTERRUPTED_ERROR) ∧
    (j.global_analysis_status = .running →
      (reconcile_job j).global_analysis_status = .failed) ∧
    (j.section_analysis_status = .running →
      (reconcile_job j).section_analysis_status = .failed) ∧
    (j.analysis_status ≠ .running →
      (reconcile_job j).analysis_status = j.analysis_status ∧
        (reconcile_job j).analysis_error = j.analysis_error) ∧
    (j.global_analysis_status ≠ .running →
      (reconcile_job j).global_analysis_status = j.global_analysis_status) ∧
    (j.section_analysis_status ≠ .running →
      (reconcile_job j).section_analysis_status = j.section_analysis_status) ∧
    (reconcile_running_jobs jobs).1 = jobs.map reconcile_job ∧
    ((reconcile_running_jobs jobs).2 = true ↔ ∃ jj ∈ jobs,
      jj.analysis_status = .running ∨ jj.global_analysis_status = .running ∨
        jj.section_analysis_status = .running) := by
  refine ⟨?_, ?_, ?_, ?_, ?_, ?_, rfl, ?_⟩
  · intro h
    by_cases hg : j.global_analysis_status = .running <;>
      by_cases hs : j.section_analysis_status = .running <;>
        simp [reconcile_job, h, hg, hs]
  · intro hg
    by_cases h : j.analysis_status = .running <;>
      by_cases hs : j.section_analysis_status = .running <;>
        simp [reconcile_job, h, hg, hs]
  · intro hs
    by_cases h : j.analysis_status = .running <;>
      by_cases hg : j.global_analysis_status = .running <;>
        simp [reconcile_job, h, hg, hs]
  · intro h
    by_cases hg : j.global_analysis_status = .running <;>
      by_cases hs : j.section_analysis_status = .running <;>
        simp [reconcile_job, h, hg, hs]
  · intro hg
    by_cases h : j.analysis_status = .running <;>
      by_cases hs : j.section_analysis_status = .running <;>
        simp [reconcile_job, h, hg, hs]
  · intro hs
    by_cases h : j.analysis_status = .running <;>
      by_cases hg : j.global_analysis_status = .running <;>
        simp [reconcile_job, h, hg, hs]
  · simp only [reconcile_running_jobs, job_was_running, List.any_eq_true,
      Bool.or_eq_true, decide_eq_true_eq]
    constructor
    · rintro ⟨jj, hm, hc⟩
      exact ⟨jj, hm, by tauto⟩
    · rintro ⟨jj, hm, hc⟩
      exact ⟨jj, hm, by tauto⟩

/-- Witness for C2 at the all-running job. -/
theorem C2_reconcile_witness :
    (reconcile_job c2job).analysis_status = .failed ∧
      (reconcile_job c2job).analysis_error = some RUN_INTERRUPTED_ERROR :=
  (C2_reconcile [] c2job).1 rfl

/-- C3 counterexample: a job with no pairs produces a zero-unit global
run whose running transition already has progress == total (0 == 0)
while the stage status is running, not done — so progress == total does
not imply status == done. -/
theorem C3_progress_iff_counterexample :
    ∃ step ∈ global_run_trace c3job,
      step.state.global_analysis_status ≠ .done ∧
      step.state.global_analysis_progress = step.state.global_analysis_total := by
  refine ⟨⟨{ c3job with
    global_analysis_status := .running
    global_analysis_total := 0
    global_analysis_progress := 0 }, true⟩, ?_, ?_, rfl⟩
  · simp [global_run_trace, work_items, c3job]
  · simp

/-- C3 (amended): in every observable state of each of the three stage
runs, progress never exceeds total, and a state whose stage status is
done has progress equal to total; the final state of each run is done
with progress equal to total.  The converse implication of the claim is
false: running or idle states can also satisfy progress == total. -/
theorem C3_progress_bounds (job : JobMetadata) :
    (∀ st ∈ analysis_run_trace job,
      st.state.analysis_progress ≤ st.state.analysis_total ∧
        (st.state.analysis_status = .done →
          st.state.analysis_progress = st.state.analysis_total)) ∧
    (∀ st ∈ global_run_trace job,
      st.state.global_analysis_progress ≤ st.state.global_analysis_total ∧
        (st.state.global_analysis_status = .done →
          st.state.global_analysis_progress = st.state.global_analysis_total)) ∧
    (∀ st ∈ section_run_trace job,
      st.state.section_analysis_progress ≤ st.state.section_analysis_total ∧
        (st.state.section_analysis_status = .done →
          st.state.section_analysis_progress = st.state.section_analysis_total)) ∧
    (∀ st, (analysis_run_trace job).getLast? = some st →
      st.state.analysis_status = .done ∧
        st.state.analysis_progress = st.state.analysis_total) ∧
    (∀ st, (global_run_trace job).getLast? = some st →
      st.state.global_analysis_status = .done ∧
        st.state.global_analysis_progress = st.state.global_analysis_total) ∧
    (job.analysis_status = .done →
      ∀ st, (section_run_trace job).getLast? = some st →
        st.state.section_analysis_status = .done ∧
          st.state.section_analysis_progress = st.state.section_analysis_total) := by
  refine ⟨?_, ?_, ?_, ?_, ?_, ?_⟩
  · intro st hst
    simp only [analysis_run_trace, List.cons_append, List.mem_cons, List.mem_append, List.mem_map,
      List.mem_range, List.mem_singleton, List.not_mem_nil, or_false] at hst
    rcases hst with rfl | ⟨k, hk, rfl⟩ | rfl <;> simp <;> omega
  · intro st hst
    simp only [global_run_trace, List.cons_append, List.mem_cons, List.mem_append, List.mem_map,
      List.mem_range, List.mem_singleton, List.not_mem_nil, or_false] at hst
    rcases hst with rfl | ⟨k, hk, rfl⟩ | rfl <;> simp <;> omega
  · intro st hst
    unfold section_run_trace at hst
    by_cases hg : job.analysis_status ≠ .done
    · rw [if_pos hg] at hst
      simp at hst
    · rw [if_neg hg] at hst
      simp only [List.cons_append, List.mem_cons, List.mem_append, List.mem_map,
        List.mem_range, List.mem_singleton, List.not_mem_nil, or_false] at hst
      rcases hst with rfl | ⟨k, hk, rfl⟩ | rfl <;> simp <;> omega
  · intro st hst
    simp only [analysis_run_trace] at hst
    rw [List.getLast?_concat] at hst
    simp only [Option.some.injEq] at hst
    subst hst
    exact ⟨rfl, rfl⟩
  · intro st hst
    simp only [global_run_trace] at hst
    rw [List.getLast?_concat] at hst
    simp only [Option.some.injEq] at hst
    subst hst
    exact ⟨rfl, rfl⟩
  · intro hdone st hst
    simp only [section_run_trace] at hst
    rw [if_neg (by simp [hdone])] at hst
    rw [List.getLast?_concat] at hst
    simp only [Option.some.injEq] at hst
    subst hst
    exact ⟨rfl, rfl⟩

/-- Witness for C3: the last state of a one-unit detection run is done
with progress equal to total. -/
theorem C3_progress_bounds_witness :
    (analysis_run_trace c5job).getLast?.map (fun st => st.state.analysis_status)
      = some AnalysisStatus.done := by
  have h := (C3_progress_bounds c5job).2.2.2.1
  rcases hlast : (analysis_run_trace c5job).getLast? with _ | st
  · exact absurd hlast (by simp [analysis_run_trace])
  · simp [Option.map_some, (h st hlast).1]

/-- C5 counterexample: the detection pipeline run of a one-page job
reaches the running transition with total = 1 and progress = 0 but does
not persist there — in fact run_analysis never persists at all. -/
theorem C5_detection_no_persist_counterexample :
    (∃ step ∈ analysis_run_trace c5job,
      step.state.analysis_status = .running ∧ step.state.analysis_total = 1 ∧
        step.state.analysis_progress = 0 ∧ step.persisted = false) ∧
    ∀ step ∈ analysis_run_trace c5job, step.persisted = false := by
  constructor
  · refine ⟨⟨{ c5job with
      analysis_status := .running
      analysis_total := 1
      analysis_progress := 0 }, false⟩, ?_, rfl, rfl, rfl, rfl⟩
    have : (work_items c5job).length = 1 := by
      simp [work_items, c5job, onePagePair]
    simp [analysis_run_trace, this]
  · intro step hstep
    simp only [analysis_run_trace, List.cons_append, List.mem_cons, List.mem_append, List.mem_map,
      List.mem_range, List.mem_singleton, List.not_mem_nil, or_false] at hstep
    rcases hstep with rfl | ⟨k, hk, rfl⟩ | rfl <;> rfl

/-- C5 (amended): the global and section pipelines persist the snapshot
at the running transition (with total set to the unit count and
progress 0) and at the done transition; the detection pipeline performs
the same stage transitions but never persists the snapshot. -/
theorem C5_stage_persistence (job : JobMetadata) :
    (∀ st ∈ analysis_run_trace job, st.persisted = false) ∧
    (∀ st, (analysis_run_trace job).head? = some st →
      st.state.analysis_status = .running ∧
        st.state.analysis_total = (work_items job).length ∧
        st.state.analysis_progress = 0) ∧
    (∀ st, (global_run_trace job).head? = some st →
      st.state.global_analysis_status = .running ∧
        st.state.global_analysis_total = (work_items job).length ∧
        st.state.global_analysis_progress = 0 ∧ st.persisted = true) ∧
    (∀ st, (global_run_trace job).getLast? = some st →
      st.state.global_analysis_status = .done ∧ st.persisted = true) ∧
    (job.analysis_status = .done →
      (∀ st, (section_run_trace job).head? = some st →
        st.state.section_analysis_status = .running ∧
          st.state.section_analysis_total = (work_items job).length ∧
          st.state.section_analysis_progress = 0 ∧ st.persisted = true) ∧
      ∀ st, (section_run_trace job).getLast? = some st →
        st.state.section_analysis_status = .done ∧ st.persisted = true) := by
  refine ⟨?_, ?_, ?_, ?_, ?_⟩
  · intro st hst
    simp only [analysis_run_trace, List.cons_append, List.mem_cons, List.mem_append, List.mem_map,
      List.mem_range, List.mem_singleton, List.not_mem_nil, or_false] at hst
    rcases hst with rfl | ⟨k, hk, rfl⟩ | rfl <;> rfl
  · intro st hst
    simp only [analysis_run_trace, List.cons_append, List.head?_cons, Option.some.injEq] at hst
    subst hst
    exact ⟨rfl, rfl, rfl⟩
  · intro st hst
    simp only [global_run_trace, List.cons_append, List.head?_cons, Option.some.injEq] at hst
    subst hst
    exact ⟨rfl, rfl, rfl, rfl⟩
  · intro st hst
    simp only [global_run_trace] at hst
    rw [List.getLast?_concat] at hst
    simp only [Option.some.injEq] at hst
    subst hst
    exact ⟨rfl, rfl⟩
  · intro hdone
    constructor
    · intro st hst
      simp only [section_run_trace] at hst
      rw [if_neg (by simp [hdone])] at hst
      simp only [List.cons_append, List.head?_cons, Option.some.injEq] at hst
      subst hst
      exact ⟨rfl, rfl, rfl, rfl⟩
    · intro st hst
      simp only [section_run_trace] at hst
      rw [if_neg (by simp [hdone])] at hst
      rw [List.getLast?_concat] at hst
      simp only [Option.some.injEq] at hst
      subst hst
      exact ⟨rfl, rfl⟩

/-- Witness for C5: the section pipeline of a detection-done job
persists its final done state. -/
theorem C5_stage_persistence_witness :
    (section_run_trace doneJob).getLast?.map
        (fun st => (st.state.section_analysis_status, st.persisted))
      = some (AnalysisStatus.done, true) := by
  have h := ((C5_stage_persistence doneJob).2.2.2.2 rfl).2
  rcases hlast : (section_run_trace doneJob).getLast? with _ | st
  · have hne : (section_run_trace doneJob).getLast? ≠ none := by
      unfold section_run_trace
      rw [if_neg (by simp [doneJob])]
      rw [List.getLast?_concat]
      simp
    exact absurd hlast hne
  · obtain ⟨h1, h2⟩ := h st hlast
    simp [Option.map_some, h1, h2]

/-- C10: when the job id is absent from the store, each of the three
pipeline entry points returns without changing the job records, the
persisted snapshot count, or any result store. -/
theorem C10_missing_job_noop (w : World) (job_id : String)
    (o1 : String → Nat → Option (PageAnalysisR × PageAnalysisR))
    (o2 : String → Nat → Option GlobalPageAnalysisR)
    (o3 : String → Nat → Option SectionPageAnalysisR)
    (h : get_job w job_id = none) :
    run_analysis_world o1 job_id w = w ∧
      run_global_analysis_world o2 job_id w = w ∧
      run_section_analysis_world o3 job_id w = w := by
  unfold run_analysis_world run_global_analysis_world run_section_analysis_world
  rw [h]
  exact ⟨rfl, rfl, rfl⟩

/-- Witness for C10 at a concrete store missing the requested job id. -/
theorem C10_missing_job_noop_witness :
    run_analysis_world (fun _ _ => none) "absent" c10world = c10world ∧
      run_global_analysis_world (fun _ _ => none) "absent" c10world = c10world ∧
      run_section_analysis_world (fun _ _ => none) "absent" c10world = c10world :=
  C10_missing_job_noop c10world "absent" (fun _ _ => none) (fun _ _ => none)
    (fun _ _ => none) (by simp [get_job, c10world])

/-!
The cross-version section matcher.
-/

theorem extract_fold_shape (scorer : String → String → ℚ) (q : String) :
    ∀ (l : List String) (c0 : String),
      ∃ c, l.foldl (extract_step scorer q) (some (c0, scorer q c0))
          = some (c, scorer q c) ∧ (c = c0 ∨ c ∈ l) := by
  intro l
  induction l with
  | nil => intro c0; exact ⟨c0, rfl, Or.inl rfl⟩
  | cons cc rest ih =>
    intro c0
    by_cases hgt : scorer q cc > scorer q c0
    · obtain ⟨c, hc, hmem⟩ := ih cc
      refine ⟨c, ?_, ?_⟩
      · rw [List.foldl_cons]
        rw [show extract_step scorer q (some (c0, scorer q c0)) cc
          = some (cc, scorer q cc) by simp [extract_step, hgt]]
        exact hc
      · rcases hmem with rfl | hm
        · exact Or.inr (List.mem_cons_self _ _)
        · exact Or.inr (List.mem_cons_of_mem _ hm)
    · obtain ⟨c, hc, hmem⟩ := ih c0
      refine ⟨c, ?_, ?_⟩
      · rw [List.foldl_cons]
        rw [show extract_step scorer q (some (c0, scorer q c0)) cc
          = some (c0, scorer q c0) by simp [extract_step, hgt]]
        exact hc
      · rcases hmem with rfl | hm
        · exact Or.inl rfl
        · exact Or.inr (List.mem_cons_of_mem _ hm)

theorem extract_one_spec (scorer : String → String → ℚ) (q : String) (choices : List String)
    (h : choices ≠ []) :
    ∃ c, extract_one scorer q choices = some (c, scorer q c) ∧ c ∈ choices := by
  match choices with
  | c0 :: rest =>
    obtain ⟨c, hc, hmem⟩ := extract_fold_shape scorer q rest c0
    refine ⟨c, ?_, ?_⟩
    · unfold extract_one
      rw [List.foldl_cons]
      rw [show extract_step scorer q none c0 = some (c0, scorer q c0) from rfl]
      exact hc
    · rcases hmem with rfl | hm
      · exact List.mem_cons_self _ _
      · exact List.mem_cons_of_mem _ hm

theorem match_go_spec (scorer : String → String → ℚ) (tests : List String) :
    ∀ (rnames : List String) (st : MatchState),
      st.used_test = (st.matched.map Prod.snd).reverse →
      (st.matched.map Prod.snd).Nodup →
      ((match_sections_go scorer tests rnames st).matched.map Prod.snd).Nodup ∧
      (match_sections_go scorer tests rnames st).used_test
        = ((match_sections_go scorer tests rnames st).matched.map Prod.snd).reverse ∧
      (∃ delta, (match_sections_go scorer tests rnames st).matched = st.matched ++ delta ∧
        ∀ p ∈ delta, p.1 ∈ rnames ∧ p.2 ∈ tests ∧
          (p.1 = p.2 ∨ MATCH_THRESHOLD ≤ scorer p.1 p.2)) ∧
      (∀ a, a ∈ st.used_test → a ∈ (match_sections_go scorer tests rnames st).used_test) ∧
      (∀ a ∈ rnames, a ∈ tests → a ∈ (match_sections_go scorer tests rnames st).used_test) := by
  intro rnames
  induction rnames with
  | nil =>
    intro st h1 h2
    exact ⟨h2, h1, ⟨[], by simp [match_sections_go], by simp⟩, fun a ha => ha, by simp⟩
  | cons rn rest ih =>
    intro st h1 h2
    by_cases hex : rn ∈ tests ∧ rn ∉ st.used_test
    · have hnotin : rn ∉ st.matched.map Prod.snd := by
        intro hh
        exact hex.2 (by rw [h1]; exact List.mem_reverse.mpr hh)
      have h1' : (rn :: st.used_test)
          = ((st.matched ++ [(rn, rn)]).map Prod.snd).reverse := by
        rw [List.map_append, List.reverse_append]
        simp [h1]
      have h2' : ((st.matched ++ [(rn, rn)]).map Prod.snd).Nodup := by
        rw [List.map_append]
        simp [List.nodup_append, h2, hnotin]
      obtain ⟨g1, g2, ⟨delta, gd1, gd2⟩, g4, g5⟩ :=
        ih ⟨st.matched ++ [(rn, rn)], rn :: st.used_test⟩ h1' h2'
      rw [show match_sections_go scorer tests (rn :: rest) st
        = match_sections_go scorer tests rest ⟨st.matched ++ [(rn, rn)], rn :: st.used_test⟩ by
          simp [match_sections_go, hex]]
      refine ⟨g1, g2, ⟨(rn, rn) :: delta, by simpa using gd1, ?_⟩, ?_, ?_⟩
      · intro p hp
        rcases List.mem_cons.mp hp with rfl | hp
        · exact ⟨List.mem_cons_self _ _, hex.1, Or.inl rfl⟩
        · obtain ⟨q1, q2, q3⟩ := gd2 p hp
          exact ⟨List.mem_cons_of_mem _ q1, q2, q3⟩
      · intro a ha
        exact g4 a (List.mem_cons_of_mem _ ha)
      · intro a ha hat
        rcases List.mem_cons.mp ha with rfl | ha
        · exact g4 a (List.mem_cons_self _ _)
        · exact g5 a ha hat
    · have hbranch : match_sections_go scorer tests (rn :: rest) st
          = match extract_one scorer rn (tests.filter fun tn => tn ∉ st.used_test) with
            | some m =>
              if m.2 ≥ MATCH_THRESHOLD then
                match_sections_go scorer tests rest
                  ⟨st.matched ++ [(rn, m.1)], m.1 :: st.used_test⟩
              else match_sections_go scorer tests rest st
            | none => match_sections_go scorer tests rest st := by
        simp [match_sections_go, hex]
      have hrn : rn ∈ tests → rn ∈ st.used_test := by
        intro hin
        by_contra hc
        exact hex ⟨hin, hc⟩
      rcases hcase : extract_one scorer rn (tests.filter fun tn => tn ∉ st.used_test)
        with _ | m
      · rw [hbranch, hcase]
        obtain ⟨g1, g2, ⟨delta, gd1, gd2⟩, g4, g5⟩ := ih st h1 h2
        refine ⟨g1, g2, ⟨delta, gd1, ?_⟩, g4, ?_⟩
        · intro p hp
          obtain ⟨q1, q2, q3⟩ := gd2 p hp
          exact ⟨List.mem_cons_of_mem _ q1, q2, q3⟩
        · intro a ha hat
          rcases List.mem_cons.mp ha with rfl | ha
          · exact g4 a (hrn hat)
          · exact g5 a ha hat
      · by_cases hth : m.2 ≥ MATCH_THRESHOLD
        · have hfil : (tests.filter fun tn => tn ∉ st.used_test) ≠ [] := by
            intro hh
            rw [hh] at hcase
            simp [extract_one] at hcase
          obtain ⟨c, hcex, hcmem⟩ := extract_one_spec scorer rn _ hfil
          have hm1 : m.1 = c := by
            rw [hcase] at hcex
            exact (Option.some.injEq _ _ ▸ hcex.symm) ▸ rfl
          obtain ⟨hctest, hcused⟩ := List.mem_filter.mp hcmem
          have hcused2 : c ∉ st.used_test := by simpa using hcused
          have hnotin : c ∉ st.matched.map Prod.snd := by
            intro hh
            exact hcused2 (by rw [h1]; exact List.mem_reverse.mpr hh)
          have h1' : (m.1 :: st.used_test)
              = ((st.matched ++ [(rn, m.1)]).map Prod.snd).reverse := by
            rw [List.map_append, List.reverse_append]
            simp [h1]
          have h2' : ((st.matched ++ [(rn, m.1)]).map Prod.snd).Nodup := by
            rw [List.map_append]
            simp only [hm1]
            simp [List.nodup_append, h2, hnotin]
          obtain ⟨g1, g2, ⟨delta, gd1, gd2⟩, g4, g5⟩ :=
            ih ⟨st.matched ++ [(rn, m.1)], m.1 :: st.used_test⟩ h1' h2'
          rw [hbranch, hcase]
          simp only []
          rw [if_pos hth]
          refine ⟨g1, g2, ⟨(rn, m.1) :: delta, by simpa using gd1, ?_⟩, ?_, ?_⟩
          · intro p hp
            rcases List.mem_cons.mp hp with rfl | hp
            · refine ⟨List.mem_cons_self _ _, by rw [hm1]; exact hctest, Or.inr ?_⟩
              have hmc : m = (c, scorer rn c) := Option.some.inj (hcase.symm.trans hcex)
              have hval : m.2 = scorer rn m.1 := by rw [hmc]
              rw [← hval]
              exact hth
            · obtain ⟨q1, q2, q3⟩ := gd2 p hp
              exact ⟨List.mem_cons_of_mem _ q1, q2, q3⟩
          · intro a ha
            exact g4 a (List.mem_cons_of_mem _ ha)
          · intro a ha hat
            rcases List.mem_cons.mp ha with rfl | ha
            · exact g4 a (List.mem_cons_of_mem _ (hrn hat))
            · exact g5 a ha hat
        · rw [hbranch, hcase]
          simp only []
          rw [if_neg hth]
          obtain ⟨g1, g2, ⟨delta, gd1, gd2⟩, g4, g5⟩ := ih st h1 h2
          refine ⟨g1, g2, ⟨delta, gd1, ?_⟩, g4, ?_⟩
          · intro p hp
            obtain ⟨q1, q2, q3⟩ := gd2 p hp
            exact ⟨List.mem_cons_of_mem _ q1, q2, q3⟩
          · intro a ha hat
            rcases List.mem_cons.mp ha with rfl | ha
            · exact g4 a (hrn hat)
            · exact g5 a ha hat

theorem wratio_esg_pair : wratio_score "ESG Score" "ESG score" = 800 / 9 := by
  have hl1 : "ESG Score".length = 9 := by decide
  have hl2 : "ESG score".length = 9 := by decide
  have hd : indel_dist "ESG Score".toList "ESG score".toList = 2 := by decide
  have hdl : "ESG Score".toList.length = 9 := by decide
  have hdl2 : "ESG score".toList.length = 9 := by decide
  have hj1 : token_sort_join "ESG Score" = "ESG Score" := by decide
  have hj2 : token_sort_join "ESG score" = "ESG score" := by decide
  have hu1 : uniq_tokens "ESG Score" = ["ESG", "Score"] := by decide
  have hu2 : uniq_tokens "ESG score" = ["ESG", "score"] := by decide
  have hbase : fuzz_base_score "ESG Score".toList "ESG score".toList = 800 / 9 := by
    unfold fuzz_base_score
    rw [hd, hdl, hdl2]
    norm_num [norm_dist_score]
  have hsort : token_sort_score "ESG Score" "ESG score" = 800 / 9 := by
    unfold token_sort_score
    rw [hj1, hj2, hbase]
  have hds : indel_dist "Score".toList "score".toList = 2 := by decide
  have hset : token_set_score "ESG Score" "ESG score" = 80 := by
    unfold token_set_score
    rw [hu1, hu2]
    dsimp only
    have hf1 : (["ESG", "Score"].filter fun w => w ∈ ["ESG", "score"]) = ["ESG"] := by decide
    have hf2 : (["ESG", "Score"].filter fun w => w ∉ ["ESG", "score"]) = ["Score"] := by decide
    have hf3 : (["ESG", "score"].filter fun w => w ∉ ["ESG", "Score"]) = ["score"] := by decide
    rw [hf1, hf2, hf3]
    have hcond : ¬ ((["ESG"] : List String) ≠ [] ∧
        ((["Score"] : List String) = [] ∨ (["score"] : List String) = [])) := by decide
    rw [if_neg hcond]
    have hi1 : String.intercalate " " ["Score"] = "Score" := by decide
    have hi2 : String.intercalate " " ["score"] = "score" := by decide
    have hi3 : (String.intercalate " " ["ESG"]).length = 3 := by decide
    have hls : "Score".length = 5 := by decide
    have hls2 : "score".length = 5 := by decide
    rw [hi1, hi2, hi3, hds, hls, hls2]
    norm_num [norm_dist_score, max_def]
  have hcomb : token_combined_score "ESG Score" "ESG score" = 800 / 9 := by
    unfold token_combined_score
    rw [hsort, hset]
    norm_num [max_def]
  unfold wratio_score
  dsimp only
  rw [hl1, hl2]
  rw [if_neg (by norm_num)]
  rw [if_pos (by norm_num [max_def, min_def])]
  rw [hbase, hcomb]
  norm_num [max_def]

theorem window_esg_footer :
    window_score "ESG Score".toList "Footer".toList = 100 / 3 := by
  have hlF : "Footer".toList.length = 6 := by decide
  have hcw : char_windows "Footer".toList.length "ESG Score".toList
      = ["ESG Sc".toList, "SG Sco".toList, "G Scor".toList, " Score".toList] := by decide
  have hd0 : indel_dist "Footer".toList "ESG Sc".toList = 12 := by decide
  have hd1 : indel_dist "Footer".toList "SG Sco".toList = 10 := by decide
  have hd2 : indel_dist "Footer".toList "G Scor".toList = 8 := by decide
  have hd3 : indel_dist "Footer".toList " Score".toList = 8 := by decide
  have hw0len : "ESG Sc".toList.length = 6 := by decide
  have hw1len : "SG Sco".toList.length = 6 := by decide
  have hw2len : "G Scor".toList.length = 6 := by decide
  have hw3len : " Score".toList.length = 6 := by decide
  have hb0 : fuzz_base_score "Footer".toList "ESG Sc".toList = 0 := by
    unfold fuzz_base_score
    rw [hd0, hlF, hw0len]
    norm_num [norm_dist_score]
  have hb1 : fuzz_base_score "Footer".toList "SG Sco".toList = 50 / 3 := by
    unfold fuzz_base_score
    rw [hd1, hlF, hw1len]
    norm_num [norm_dist_score]
  have hb2 : fuzz_base_score "Footer".toList "G Scor".toList = 100 / 3 := by
    unfold fuzz_base_score
    rw [hd2, hlF, hw2len]
    norm_num [norm_dist_score]
  have hb3 : fuzz_base_score "Footer".toList " Score".toList = 100 / 3 := by
    unfold fuzz_base_score
    rw [hd3, hlF, hw3len]
    norm_num [norm_dist_score]
  unfold window_score
  dsimp only
  rw [if_neg (by decide), if_neg (by decide)]
  rw [hcw]
  simp only [List.map_cons, List.map_nil]
  rw [hb0, hb1, hb2, hb3]
  norm_num [List.foldl, max_def]

theorem wratio_esg_footer : wratio_score "ESG Score" "Footer" = 30 := by
  have hl1 : "ESG Score".length = 9 := by decide
  have hlF : "Footer".length = 6 := by decide
  have hdl : "ESG Score".toList.length = 9 := by decide
  have hdlF : "Footer".toList.length = 6 := by decide
  have hd : indel_dist "ESG Score".toList "Footer".toList = 11 := by decide
  have hbase : fuzz_base_score "ESG Score".toList "Footer".toList = 80 / 3 := by
    unfold fuzz_base_score
    rw [hd, hdl, hdlF]
    norm_num [norm_dist_score]
  have hj1 : token_sort_join "ESG Score" = "ESG Score" := by decide
  have hjF : token_sort_join "Footer" = "Footer" := by decide
  have hiu1 : String.intercalate " " (uniq_tokens "ESG Score") = "ESG Score" := by decide
  have hiuF : String.intercalate " " (uniq_tokens "Footer") = "Footer" := by decide
  have hwt : window_token_score "ESG Score" "Footer" = 100 / 3 := by
    unfold window_token_score
    dsimp only
    rw [hj1, hjF]
    have hany : ¬ (((uniq_tokens "ESG Score").any fun w =>
        decide (w ∈ uniq_tokens "Footer")) = true) := by decide
    rw [if_neg hany]
    rw [hiu1, hiuF, window_esg_footer]
    norm_num [max_def]
  unfold wratio_score
  dsimp only
  rw [hl1, hlF]
  rw [if_neg (by norm_num)]
  rw [if_neg (by norm_num [max_def, min_def])]
  rw [if_pos (by norm_num [max_def, min_def])]
  rw [hbase, window_esg_footer, hwt]
  norm_num [max_def]

theorem match_go_exact (scorer : String → String → ℚ) (tests : List String)
    (rn : String) (rest : List String) (st : MatchState)
    (h : rn ∈ tests ∧ rn ∉ st.used_test) :
    match_sections_go scorer tests (rn :: rest) st
      = match_sections_go scorer tests rest
          ⟨st.matched ++ [(rn, rn)], rn :: st.used_test⟩ := by
  simp [match_sections_go, h]

theorem match_go_fuzzy (scorer : String → String → ℚ) (tests : List String)
    (rn : String) (rest : List String) (st : MatchState) (m : String × ℚ)
    (h : ¬ (rn ∈ tests ∧ rn ∉ st.used_test))
    (he : extract_one scorer rn (tests.filter fun tn => tn ∉ st.used_test) = some m)
    (hth : m.2 ≥ MATCH_THRESHOLD) :
    match_sections_go scorer tests (rn :: rest) st
      = match_sections_go scorer tests rest
          ⟨st.matched ++ [(rn, m.1)], m.1 :: st.used_test⟩ := by
  have he2 : extract_one scorer rn (tests.filter fun tn => !decide (tn ∈ st.used_test))
      = some m := by simpa using he
  simp [match_sections_go, h, he2, hth]

theorem extract_esg : extract_one wratio_score "ESG Score" ["ESG score", "Footer"]
    = some ("ESG score", 800 / 9) := by
  unfold extract_one
  rw [List.foldl_cons, List.foldl_cons, List.foldl_nil]
  rw [show extract_step wratio_score "ESG Score" none "ESG score"
    = some ("ESG score", wratio_score "ESG Score" "ESG score") from rfl]
  unfold extract_step
  dsimp only
  rw [wratio_esg_pair, wratio_esg_footer]
  rw [if_neg (by norm_num)]

theorem match_go_esg :
    match_sections_go wratio_score ["ESG score", "Footer"] ["ESG Score", "Footer"] ⟨[], []⟩
      = ⟨[("ESG Score", "ESG score"), ("Footer", "Footer")], ["Footer", "ESG score"]⟩ := by
  rw [match_go_fuzzy wratio_score ["ESG score", "Footer"] "ESG Score" ["Footer"]
    ⟨[], []⟩ ("ESG score", 800 / 9) (by decide) extract_esg
    (by norm_num [MATCH_THRESHOLD])]
  dsimp only [List.nil_append]
  rw [match_go_exact wratio_score ["ESG score", "Footer"] "Footer" []
    ⟨[("ESG Score", "ESG score")], ["ESG score"]⟩ (by decide)]
  rfl

/-- C4: the cross-version matcher walks the reference names in order;
every matched pair joins a reference name to a test name that is equal
to it (exact match) or scores at least the threshold 75; a consumed
test name is never matched again; ref_only holds exactly the reference
names missing from the matched pairs, test_only exactly the test names
missing from them; a reference name that also occurs among the test
names is always consumed, so it never appears in test_only; and the
names ["ESG Score", "Footer"] against ["ESG score", "Footer"] under the
modelled WRatio produce the fuzzy pair (ESG Score, ESG score), the
exact pair (Footer, Footer), and no leftovers on either side. -/
theorem C4_section_matcher :
    (∀ (scorer : String → String → ℚ) (refs tests : List String),
      ((match_sections scorer refs tests).1.map Prod.snd).Nodup ∧
      (∀ p ∈ (match_sections scorer refs tests).1,
        p.1 ∈ refs ∧ p.2 ∈ tests ∧ (p.1 = p.2 ∨ MATCH_THRESHOLD ≤ scorer p.1 p.2)) ∧
      (∀ a, a ∈ (match_sections scorer refs tests).2.1 ↔
        a ∈ refs ∧ ∀ p ∈ (match_sections scorer refs tests).1, p.1 ≠ a) ∧
      (∀ a, a ∈ (match_sections scorer refs tests).2.2 ↔
        a ∈ tests ∧ ∀ p ∈ (match_sections scorer refs tests).1, p.2 ≠ a) ∧
      (∀ a ∈ refs, a ∈ tests → a ∉ (match_sections scorer refs tests).2.2)) ∧
    match_sections wratio_score ["ESG Score", "Footer"] ["ESG score", "Footer"]
      = ([("ESG Score", "ESG score"), ("Footer", "Footer")], [], []) := by
  constructor
  · intro scorer refs tests
    obtain ⟨g1, g2, ⟨delta, gd1, gd2⟩, g4, g5⟩ :=
      match_go_spec scorer tests refs ⟨[], []⟩ (by simp) (by simp)
    have hmatched : (match_sections scorer refs tests).1
        = (match_sections_go scorer tests refs ⟨[], []⟩).matched := rfl
    have hrefonly : (match_sections scorer refs tests).2.1
        = refs.filter fun rn =>
            !((match_sections_go scorer tests refs ⟨[], []⟩).matched.any
              fun p => p.1 == rn) := rfl
    have htestonly : (match_sections scorer refs tests).2.2
        = tests.filter fun tn =>
            tn ∉ (match_sections_go scorer tests refs ⟨[], []⟩).used_test := rfl
    have hdelta : (match_sections_go scorer tests refs ⟨[], []⟩).matched = delta := by
      simpa using gd1
    refine ⟨?_, ?_, ?_, ?_, ?_⟩
    · rw [hmatched]; exact g1
    · intro p hp
      rw [hmatched, hdelta] at hp
      exact gd2 p hp
    · intro a
      rw [hrefonly, hmatched]
      simp only [List.mem_filter, Bool.not_eq_eq_eq_not, Bool.not_true, List.any_eq_false,
        beq_iff_eq, decide_eq_true_eq]
    · intro a
      rw [htestonly, hmatched]
      simp only [List.mem_filter, decide_eq_true_eq]
      rw [g2]
      simp only [List.mem_reverse, List.mem_map]
      constructor
      · rintro ⟨ha, hb⟩
        refine ⟨ha, fun p hp hc => hb ⟨p, hp, hc⟩⟩
      · rintro ⟨ha, hb⟩
        refine ⟨ha, fun hc => ?_⟩
        obtain ⟨p, hp, hpc⟩ := hc
        exact hb p hp hpc
    · intro a ha hat hmem
      rw [htestonly] at hmem
      have := (List.mem_filter.mp hmem).2
      simp only [decide_eq_true_eq] at this
      exact this (g5 a ha hat)
  · have hms : match_sections wratio_score ["ESG Score", "Footer"] ["ESG score", "Footer"]
        = ((match_sections_go wratio_score ["ESG score", "Footer"]
              ["ESG Score", "Footer"] ⟨[], []⟩).matched,
           ["ESG Score", "Footer"].filter fun rn =>
             !((match_sections_go wratio_score ["ESG score", "Footer"]
                 ["ESG Score", "Footer"] ⟨[], []⟩).matched.any fun p => p.1 == rn),
           ["ESG score", "Footer"].filter fun tn =>
             tn ∉ (match_sections_go wratio_score ["ESG score", "Footer"]
               ["ESG Score", "Footer"] ⟨[], []⟩).used_test) := rfl
    rw [hms, match_go_esg]
    decide

/-- Closed instance of C4: the shared name Footer is consumed and so
absent from test_only in the concrete run. -/
theorem C4_section_matcher_witness :
    "Footer" ∉ (match_sections wratio_score
      ["ESG Score", "Footer"] ["ESG score", "Footer"]).2.2 :=
  (C4_section_matcher.1 wratio_score ["ESG Score", "Footer"] ["ESG score", "Footer"]).2.2.2.2
    "Footer" (by decide) (by decide)

end PdfCompare
